import Mathlib

/-!
The reflective single-row mapper of go-jorm, `main.go`.

A shallow embedding of `snakeCaseName` and of the pipeline of `jormQueryRow`
(schema reflection, predicate extraction, statement building, row capture,
row decoding), followed by the properties proved about them.

Go strings are byte strings: a string is the list of its bytes, each byte a
natural number below 256.
-/

namespace Jorm

/-- A Go `string` / `[]byte`: its bytes, in order. -/
abbrev GoString := List Nat

/-- The bytes of an ASCII literal. -/
def ascii (s : String) : GoString := s.toList.map Char.toNat

/-! ## `snakeCaseName` (main.go 172-185) -/

/-- The body of the loop `for i := 0; i < len(name); i++` of `snakeCaseName`:
`i` is the loop index, the second argument is `name[i:]`, the third is the
buffer `newstr` built so far. `c += 'a' - 'A'` is byte arithmetic. -/
def snakeCaseLoop : Nat → GoString → List Nat → List Nat
  | _, [], newstr => newstr
  | i, c :: rest, newstr =>
    if 65 ≤ c ∧ c ≤ 90 then
      let newstr1 := if i > 0 then newstr ++ [95] else newstr
      snakeCaseLoop (i + 1) rest (newstr1 ++ [(c + 32) % 256])
    else
      snakeCaseLoop (i + 1) rest (newstr ++ [c])

/-- The function `snakeCaseName(name string) string`. -/
def snakeCaseName (name : GoString) : GoString :=
  snakeCaseLoop 0 name []

/-- The snake-case rule as the specification words it: what the byte `c` at
index `i` contributes to the output. -/
def snakeRulePiece (i c : Nat) : List Nat :=
  if 65 ≤ c ∧ c ≤ 90 then (if i > 0 then [95] else []) ++ [c + 32] else [c]

/-- The pieces of the bytes of `s`, the first of which stands at index `i`,
concatenated left to right. -/
def snakeRuleFrom : Nat → GoString → List Nat
  | _, [] => []
  | i, c :: rest => snakeRulePiece i c ++ snakeRuleFrom (i + 1) rest

/-- The reference rule of the specification for a whole identifier. -/
def snakeRule (s : GoString) : List Nat := snakeRuleFrom 0 s

/-- No byte of `s` is an ASCII uppercase letter. -/
def noUpper (s : GoString) : Prop := ∀ c ∈ s, ¬ (65 ≤ c ∧ c ≤ 90)

instance : DecidablePred noUpper := fun s => by unfold noUpper; infer_instance

/-! ## The record model (the `reflect` view of a struct such as `Album`) -/

/-- A field value of one of the supported kinds: `int64`, `string`, and
`float32` (kept as its 32-bit pattern). -/
inductive Value where
  | int64 (n : Int)
  | str (s : GoString)
  | float32 (bits : Nat)
  deriving DecidableEq, Repr

/-- An exported struct field: its declared name and its current value; the
kind of the value is the declared kind of the field. -/
structure StructField where
  Name : GoString
  val : Value
  deriving DecidableEq, Repr

/-- The struct behind `beanValue`: the type name and the fields in declaration
order. -/
structure Bean where
  typeName : GoString
  fields : List StructField
  deriving DecidableEq, Repr

/-- The library call `reflect.Value.IsZero` on the supported kinds: an integer
is zero when it equals 0, a string when its length is 0, a float when it
compares equal to 0 (either sign of zero). -/
def Value.IsZero : Value → Bool
  | .int64 n => n == 0
  | .str s => s.length == 0
  | .float32 bits => bits % 2147483648 == 0

/-- The library call `FieldByName`: the first field with the given name. -/
def FieldByName (fields : List StructField) (name : GoString) : Option StructField :=
  fields.find? (fun f => f.Name = name)

/-- Assignment `m[k] = v` on a Go map kept as an association list with one
entry per key, in order of first insertion. -/
def mapSet {α : Type} : List (GoString × α) → GoString → α → List (GoString × α)
  | [], k, v => [(k, v)]
  | (k1, v1) :: rest, k, v =>
    if k1 = k then (k, v) :: rest else (k1, v1) :: mapSet rest k v

/-- Read `m[k]` on a Go map: `none` when the key is absent. -/
def mapGet {α : Type} : List (GoString × α) → GoString → Option α
  | [], _ => none
  | (k1, v1) :: rest, k => if k1 = k then some v1 else mapGet rest k

/-! ## Schema reflection and predicate extraction (main.go 71-89) -/

/-- The four accumulators of the first loop of `jormQueryRow`. -/
structure Plan where
  cols : List GoString
  conditions : List GoString
  args : List Value
  dbName2StructName : List (GoString × GoString)
  deriving DecidableEq, Repr

/-- The loop `for i := 0; i < beanType.NumField(); i++` (lines 79-89). The
first argument is the whole field list (what `FieldByName` searches), the
second the fields from index `i` on. The field named `col` is looked up by
name; the name comes from the struct itself, so the lookup finds a field. -/
def reflectLoop (all : List StructField) : List StructField → Plan → Plan
  | [], st => st
  | f :: rest, st =>
    let col := f.Name
    let cols := st.cols ++ [snakeCaseName col]
    let m := mapSet st.dbName2StructName (snakeCaseName col) col
    let val := ((FieldByName all col).getD f).val
    if !val.IsZero then
      reflectLoop all rest
        { cols := cols, conditions := st.conditions ++ [snakeCaseName col],
          args := st.args ++ [val], dbName2StructName := m }
    else
      reflectLoop all rest
        { cols := cols, conditions := st.conditions, args := st.args,
          dbName2StructName := m }

/-- The state after the first loop, started from the empty accumulators. -/
def reflectBean (b : Bean) : Plan :=
  reflectLoop b.fields b.fields
    { cols := [], conditions := [], args := [], dbName2StructName := [] }

/-! ## Statement building (main.go 91-99) -/

/-- The library call `strings.Join(elems, sep)`. -/
def Join : List GoString → GoString → GoString
  | [], _ => []
  | [a], _ => a
  | a :: b :: rest, sep => a ++ sep ++ Join (b :: rest) sep

/-- The loop of lines 94-96: each condition `s` becomes
`fmt.Sprintf(" %s = ? ", s)`, appended to `conditionWithPlaceholder`. -/
def placeholderLoop : List GoString → List GoString → List GoString
  | [], acc => acc
  | s :: rest, acc => placeholderLoop rest (acc ++ [ascii " " ++ s ++ ascii " = ? "])

/-- The statement text of line 99,
`fmt.Sprintf("SELECT %s FROM %s WHERE %s ;", resultClause, tableName, conditionClause)`. -/
def queryText (b : Bean) : GoString :=
  let tableName := snakeCaseName b.typeName
  let st := reflectBean b
  let resultClause := Join st.cols (ascii ", ")
  let conditionWithPlaceholder := placeholderLoop st.conditions []
  let conditionClause := Join conditionWithPlaceholder (ascii " AND ")
  ascii "SELECT " ++ resultClause ++ ascii " FROM " ++ tableName ++ ascii " WHERE " ++
    conditionClause ++ ascii " ;"

/-- The `Album` struct of main.go with the given field values. -/
def Album (id : Int) (title artist : GoString) (price : Nat) : Bean :=
  { typeName := ascii "Album",
    fields := [⟨ascii "Id", .int64 id⟩, ⟨ascii "Title", .str title⟩,
      ⟨ascii "Artist", .str artist⟩, ⟨ascii "Price", .float32 price⟩] }

/-! ## Driver gateway and row capture (main.go 107-148) -/

/-- The ways the run of `jormQueryRow` can stop with a Go runtime panic. -/
inductive Panic where
  | nilDereference
  | indexOutOfRange
  | zeroValue
  | interfaceConversion
  deriving DecidableEq, Repr

deriving instance DecidableEq for Except

/-- What the driver puts into a scanned `interface{}` cell, by the tests of
lines 135-141: a value of kind `Int64`; a value of type `[]byte`; `nil` (SQL
NULL); a value of kind `Slice` with elements of kind `Uint8` whose type is
not `[]byte` (a named byte-slice type, or a slice of a named `uint8` type);
or a value of any other kind (a float, a string, a time, a slice of other
elements). -/
inductive Cell where
  | int64 (n : Int)
  | bytes (b : GoString)
  | null
  | namedBytes (b : GoString)
  | other
  deriving DecidableEq, Repr

/-- The row cursor returned by `db.Query`: the column names reported by
`rows.Columns()` and the rows that `rows.Next()`/`rows.Scan` deliver, each a
list of cells, one per column. -/
structure Rows where
  Columns : List GoString
  data : List (List Cell)
  deriving DecidableEq, Repr

/-- The external driver behind `db.Query(query, args...)`: `none` stands for
a query error, on which `rows` is `nil`. -/
abbrev Driver := GoString → List Value → Option Rows

/-- The raw row `map[string][]byte`. -/
abbrev RawRow := List (GoString × GoString)

/-- Decimal digits of a natural number, most significant first; the first
argument bounds the number of digits. -/
def formatNatAux : Nat → Nat → List Nat → List Nat
  | 0, _, acc => acc
  | fuel + 1, n, acc =>
    if n < 10 then (48 + n) :: acc
    else formatNatAux fuel (n / 10) ((48 + n % 10) :: acc)

/-- The library call `strconv.FormatInt(n, 10)`. -/
def FormatInt (n : Int) : GoString :=
  if n < 0 then 45 :: formatNatAux (n.natAbs + 1) n.natAbs []
  else formatNatAux (n.natAbs + 1) n.natAbs []

/-- The loop `for ii, key := range cols` of lines 130-144 over one scanned
row: an `int64` cell is stored as its decimal digits, a `[]byte` cell as it
is, a cell of another kind stores nothing; on a `nil` cell `reflect.TypeOf`
returns `nil` and `aa.Kind()` panics (line 135); on a slice of `uint8` that
is not a `[]byte` the test of line 140 passes and the type assertion
`.([]byte)` of line 141 panics. -/
def captureLoop : List GoString → List Cell → RawRow → Except Panic RawRow
  | key :: cols, cell :: cells, result =>
    match cell with
    | .int64 n => captureLoop cols cells (mapSet result key (FormatInt n))
    | .bytes b => captureLoop cols cells (mapSet result key b)
    | .null => .error .nilDereference
    | .namedBytes _ => .error .interfaceConversion
    | .other => captureLoop cols cells result
  | _, _, result => .ok result

/-- The loop `for rows.Next()` of lines 118-146: one raw row per result row,
appended to `resultsSlice`. -/
def rowsLoop (cols : List GoString) : List (List Cell) → List RawRow → Except Panic (List RawRow)
  | [], resultsSlice => .ok resultsSlice
  | row :: more, resultsSlice =>
    match captureLoop cols row [] with
    | .error p => .error p
    | .ok result => rowsLoop cols more (resultsSlice ++ [result])

/-! ## Row decoding (main.go 150-167) -/

/-- Decimal digits to a number of any size; `none` on a byte that is not a
digit. -/
def parseDigits : List Nat → Nat → Option Nat
  | [], acc => some acc
  | c :: rest, acc =>
    if 48 ≤ c ∧ c ≤ 57 then parseDigits rest (acc * 10 + (c - 48)) else none

/-- The two errors of `strconv`: `ErrSyntax` (here `invalid`) and `ErrRange`
(here `outOfRange`). -/
inductive NumError where
  | invalid
  | outOfRange
  deriving DecidableEq, Repr

/-- The digit loop of `strconv.ParseUint(s, 10, 64)`, with `n` the number read
so far: a byte that is no digit is a syntax error; a digit read when
`n >= maxUint64/10 + 1`, or that takes `n*10 + d` beyond `maxUint64`, is a range
error, returned at once, before the bytes that follow are looked at. -/
def parseUintLoop : GoString → Nat → Except NumError Nat
  | [], n => .ok n
  | c :: rest, n =>
    if 48 ≤ c ∧ c ≤ 57 then
      if n ≥ 1844674407370955162 then .error .outOfRange
      else if n * 10 + (c - 48) > 18446744073709551615 then .error .outOfRange
      else parseUintLoop rest (n * 10 + (c - 48))
    else .error .invalid

/-- The library call `strconv.ParseUint(s, 10, 64)`: the value returned and
the error, if any. A syntax error returns 0, a range error `maxUint64`. -/
def ParseUint (s : GoString) : Nat × Option NumError :=
  if s = [] then (0, some .invalid)
  else
    match parseUintLoop s 0 with
    | .ok n => (n, none)
    | .error .invalid => (0, some .invalid)
    | .error .outOfRange => (18446744073709551615, some .outOfRange)

/-- The library call `strconv.ParseInt(s, 10, 64)`: the value returned and
whether `err != nil`. A syntax error returns 0, a range error returns the
nearest bound of `int64`. -/
def ParseInt (s : GoString) : Int × Bool :=
  match s with
  | [] => (0, true)
  | c :: rest =>
    let neg : Bool := c = 45
    let s1 := if c = 43 ∨ c = 45 then rest else s
    match ParseUint s1 with
    | (_, some .invalid) => (0, true)
    | (un, err) =>
      if !neg ∧ un ≥ 9223372036854775808 then (9223372036854775807, true)
      else if neg ∧ un > 9223372036854775808 then (-9223372036854775808, true)
      else (if neg then -(un : Int) else (un : Int), err.isSome)

/-- The call `structField.Set(v)` on the field found by `FieldByName`: the
first field with that name takes the value. -/
def setField : List StructField → GoString → Value → List StructField
  | [], _, _ => []
  | f :: rest, name, v =>
    if f.Name = name then { f with val := v } :: rest else f :: setField rest name v

/-- The value written for one raw cell (lines 154-165), chosen by the kind
of the target field; `pf` is `float32(x)` for the `x` that
`strconv.ParseFloat(string(data), 64)` returns. In each case the parse error
is discarded. -/
def decodeValue (pf : GoString → Nat) (old : Value) (data : GoString) : Value :=
  match old with
  | .int64 _ => .int64 (ParseInt data).1
  | .str _ => .str data
  | .float32 _ => .float32 (pf data)

/-- The loop `for key, data := range result` of lines 151-167. A key
missing from `dbName2StructName` reads as the empty name, `FieldByName`
then returns the zero `Value`, and `structField.Type()` panics. -/
def decodeLoop (pf : GoString → Nat) (m : List (GoString × GoString)) :
    RawRow → List StructField → Except Panic (List StructField)
  | [], fields => .ok fields
  | (key, data) :: rest, fields =>
    match FieldByName fields ((mapGet m key).getD []) with
    | none => .error .zeroValue
    | some f => decodeLoop pf m rest (setField fields f.Name (decodeValue pf f.val data))

/-! ## The whole of `jormQueryRow` -/

/-- The outcome of one run: the statements handed to `db.Query` with their
arguments, and either the record after decoding or the panic that stopped
the run. -/
structure Run where
  submitted : List (GoString × List Value)
  result : Except Panic Bean

/-- The function `jormQueryRow`, for the record `album` and the driver `db`.
Errors of `db.Query` are printed and ignored (lines 108-110), after which
`rows.Columns()` on the `nil` cursor panics. -/
def jormQueryRow (pf : GoString → Nat) (db : Driver) (album : Bean) : Run :=
  let st := reflectBean album
  let query := queryText album
  let submitted := [(query, st.args)]
  match db query st.args with
  | none => ⟨submitted, .error .nilDereference⟩
  | some rows =>
    match rowsLoop rows.Columns rows.data [] with
    | .error p => ⟨submitted, .error p⟩
    | .ok [] => ⟨submitted, .error .indexOutOfRange⟩
    | .ok (result :: _) =>
      match decodeLoop pf st.dbName2StructName result album.fields with
      | .error p => ⟨submitted, .error p⟩
      | .ok fields => ⟨submitted, .ok { album with fields := fields }⟩

/-! ## Vocabulary of the properties -/

/-- The value that `FieldByName(col)` reads for the field `f` of the struct
with fields `all`, as in the first loop. -/
def fieldVal (all : List StructField) (f : StructField) : Value :=
  ((FieldByName all f.Name).getD f).val

/-- The declared field names of a record are pairwise distinct (the Go
compiler rejects a struct that repeats a field name). -/
def distinctNames (b : Bean) : Prop := (b.fields.map (fun f => f.Name)).Nodup

instance : DecidablePred distinctNames := fun b => by unfold distinctNames; infer_instance

/-- Every field of the record holds the zero value of its type. -/
def allZero (b : Bean) : Prop := ∀ f ∈ b.fields, f.val.IsZero = true

instance : DecidablePred allZero := fun b => by unfold allZero; infer_instance

/-- The fields of the record whose value is not the zero value of its type,
in declaration order. -/
def nonZeroFields (b : Bean) : List StructField :=
  b.fields.filter (fun f => !f.val.IsZero)

/-- The db name of a field. -/
def dbName (f : StructField) : GoString := snakeCaseName f.Name

/-- The text ` p = ? ` of one predicate. -/
def placeholder (p : GoString) : GoString := ascii " " ++ p ++ ascii " = ? "

/-- The byte `?`. -/
def qmark : Nat := 63

/-- The elements of a list, each followed by the separator: the text that
stands before a given element in `Join`. -/
def joinPre : List GoString → GoString → GoString
  | [], _ => []
  | a :: rest, sep => a ++ sep ++ joinPre rest sep

/-- The byte is an ASCII uppercase letter, the test of line 176. -/
def isUpperByte (c : Nat) : Bool := decide (65 ≤ c ∧ c ≤ 90)

/-- The byte is an ASCII letter, a digit or the underscore. -/
def isIdentByte (c : Nat) : Prop :=
  (65 ≤ c ∧ c ≤ 90) ∨ (97 ≤ c ∧ c ≤ 122) ∨ (48 ≤ c ∧ c ≤ 57) ∨ c = 95

/-- The byte is a lowercase ASCII letter, a digit or the underscore. -/
def isLowerIdentByte (c : Nat) : Prop :=
  (97 ≤ c ∧ c ≤ 122) ∨ (48 ≤ c ∧ c ≤ 57) ∨ c = 95

/-- An identifier made only of ASCII letters, digits and underscore. -/
def isIdentifier (s : GoString) : Prop := ∀ c ∈ s, isIdentByte c

/-- A bare lowercase token: lowercase ASCII letters, digits and underscore. -/
def isLowerToken (s : GoString) : Prop := ∀ c ∈ s, isLowerIdentByte c

instance : DecidablePred isIdentByte := fun c => by unfold isIdentByte; infer_instance

instance : DecidablePred isLowerIdentByte := fun c => by unfold isLowerIdentByte; infer_instance

instance : DecidablePred isIdentifier := fun s => by unfold isIdentifier; infer_instance

instance : DecidablePred isLowerToken := fun s => by unfold isLowerToken; infer_instance

/-- The keys of a Go map kept as an association list. -/
def mapKeys {α : Type} (m : List (GoString × α)) : List GoString := m.map Prod.fst

/-- The step of the first loop on the map `dbName2StructName` (line 82). -/
def mapStep (m : List (GoString × GoString)) (f : StructField) : List (GoString × GoString) :=
  mapSet m (snakeCaseName f.Name) f.Name

/-- A record type with the two exported fields `AB` and `A_b`. -/
def Pair (x y : Int) : Bean :=
  { typeName := ascii "Pair", fields := [⟨ascii "AB", .int64 x⟩, ⟨ascii "A_b", .int64 y⟩] }

/-- The number is in the range of `int64`. -/
def inInt64 (n : Int) : Prop := -9223372036854775808 ≤ n ∧ n ≤ 9223372036854775807

instance : DecidablePred inInt64 := fun n => by unfold inInt64; infer_instance

/-- The bytes that lines 135-143 store for one cell: the decimal digits of an
`int64`, the bytes of a `[]byte`, nothing for any other cell. -/
def cellBytes : Cell → Option GoString
  | .int64 n => some (FormatInt n)
  | .bytes b => some b
  | .null => none
  | .namedBytes _ => none
  | .other => none

/-- The cell passes lines 131-143 without a panic: it is neither `nil` nor a
slice of `uint8` of a type other than `[]byte`. -/
def Cell.captures : Cell → Bool
  | .int64 _ => true
  | .bytes _ => true
  | .null => false
  | .namedBytes _ => false
  | .other => true

/-- Every cell of the row passes the capture without a panic. -/
def capturable (row : List Cell) : Prop := ∀ c ∈ row, c.captures = true

instance : DecidablePred capturable := fun r => by unfold capturable; infer_instance

/-- The column names that the statement of `Album` asks for. -/
def albumCols : List GoString := [ascii "id", ascii "title", ascii "artist", ascii "price"]

/-- What lines 129-167 make of one scanned row taken alone: capture it, then
decode it into the record. -/
def firstRowOutcome (pf : GoString → Nat) (b : Bean) (cols : List GoString)
    (row : List Cell) : Except Panic Bean :=
  match captureLoop cols row [] with
  | .error p => .error p
  | .ok raw =>
    match decodeLoop pf (reflectBean b).dbName2StructName raw b.fields with
    | .error p => .error p
    | .ok fields => .ok { b with fields := fields }

/-- The map `dbName2StructName` of `Album`. -/
def albumMap : List (GoString × GoString) :=
  [(ascii "id", ascii "Id"), (ascii "title", ascii "Title"), (ascii "artist", ascii "Artist"),
    (ascii "price", ascii "Price")]

/-! ## Lemmas on `snakeCaseName` -/

theorem snakeCaseLoop_eq_append (s : GoString) :
    ∀ (i : Nat) (acc : List Nat), snakeCaseLoop i s acc = acc ++ snakeRuleFrom i s := by
  induction s with
  | nil => intro i acc; simp [snakeCaseLoop, snakeRuleFrom]
  | cons c rest ih =>
    intro i acc
    have hc : c ≤ 90 → (c + 32) % 256 = c + 32 := fun h => Nat.mod_eq_of_lt (by omega)
    by_cases hu : 65 ≤ c ∧ c ≤ 90
    · by_cases hi : i > 0
      · simp [snakeCaseLoop, snakeRuleFrom, snakeRulePiece, hu, hi, ih, hc hu.2]
      · simp [snakeCaseLoop, snakeRuleFrom, snakeRulePiece, hu, hi, ih, hc hu.2]
    · simp [snakeCaseLoop, snakeRuleFrom, snakeRulePiece, hu, ih]

theorem snakeCaseName_eq_rule (s : GoString) : snakeCaseName s = snakeRule s := by
  simp [snakeCaseName, snakeRule, snakeCaseLoop_eq_append]

theorem snakeRuleFrom_noUpper (s : GoString) (h : noUpper s) :
    ∀ i, snakeRuleFrom i s = s := by
  induction s with
  | nil => intro i; rfl
  | cons c rest ih =>
    intro i
    have hc : ¬ (65 ≤ c ∧ c ≤ 90) := h c (by simp)
    have hr : noUpper rest := fun d hd => h d (by simp [hd])
    simp [snakeRuleFrom, snakeRulePiece, hc, ih hr]

theorem snakeCaseName_of_noUpper (s : GoString) (h : noUpper s) : snakeCaseName s = s := by
  rw [snakeCaseName_eq_rule]; exact snakeRuleFrom_noUpper s h 0

theorem snakeRuleFrom_noUpper_out (s : GoString) :
    ∀ i, noUpper (snakeRuleFrom i s) := by
  induction s with
  | nil => intro i c hc; simp [snakeRuleFrom] at hc
  | cons c rest ih =>
    intro i d hd
    simp only [snakeRuleFrom, List.mem_append] at hd
    rcases hd with hd | hd
    · unfold snakeRulePiece at hd
      split at hd
      · rename_i hu
        split at hd <;> simp at hd <;> omega
      · rename_i hu
        simp at hd; subst hd; exact hu
    · exact ih (i + 1) d hd

theorem snakeCaseName_noUpper (s : GoString) : noUpper (snakeCaseName s) := by
  rw [snakeCaseName_eq_rule]; exact snakeRuleFrom_noUpper_out s 0

/-! ## Lemmas on the first loop -/

theorem reflectLoop_cols (all : List StructField) (fs : List StructField) :
    ∀ st : Plan, (reflectLoop all fs st).cols = st.cols ++ fs.map dbName := by
  induction fs with
  | nil => intro st; simp [reflectLoop]
  | cons f rest ih =>
    intro st
    simp only [reflectLoop]
    split <;> simp [ih, dbName]

theorem reflectLoop_conditions (all : List StructField) (fs : List StructField) :
    ∀ st : Plan, (reflectLoop all fs st).conditions =
      st.conditions ++ (fs.filter (fun f => !(fieldVal all f).IsZero)).map dbName := by
  induction fs with
  | nil => intro st; simp [reflectLoop]
  | cons f rest ih =>
    intro st
    simp only [reflectLoop]
    split
    · rename_i h
      have h1 : (!(fieldVal all f).IsZero) = true := h
      simp [ih, List.filter_cons, h1, dbName]
    · rename_i h
      have h1 : ¬ ((!(fieldVal all f).IsZero) = true) := h
      simp [ih, List.filter_cons, h1]

theorem reflectLoop_args (all : List StructField) (fs : List StructField) :
    ∀ st : Plan, (reflectLoop all fs st).args =
      st.args ++ (fs.filter (fun f => !(fieldVal all f).IsZero)).map (fieldVal all) := by
  induction fs with
  | nil => intro st; simp [reflectLoop]
  | cons f rest ih =>
    intro st
    simp only [reflectLoop]
    split
    · rename_i h
      have h1 : (!(fieldVal all f).IsZero) = true := h
      rw [ih, List.filter_cons, if_pos h1]
      simp only [List.map_cons, List.append_assoc, List.singleton_append]
      rfl
    · rename_i h
      have h1 : ¬ ((!(fieldVal all f).IsZero) = true) := h
      simp [ih, List.filter_cons, h1]

theorem FieldByName_mem (all : List StructField) (name : GoString) (g : StructField)
    (h : FieldByName all name = some g) : g ∈ all ∧ g.Name = name := by
  unfold FieldByName at h
  have h1 := List.find?_some h
  have h2 := List.mem_of_find?_eq_some h
  exact ⟨h2, by simpa using h1⟩

theorem fieldVal_mem (all : List StructField) (f : StructField) (hf : f ∈ all) :
    ∃ g ∈ all, fieldVal all f = g.val := by
  unfold fieldVal
  cases h : FieldByName all f.Name with
  | none => exact ⟨f, hf, rfl⟩
  | some g => exact ⟨g, (FieldByName_mem all f.Name g h).1, rfl⟩

theorem fieldVal_of_nodup (all : List StructField)
    (hn : (all.map (fun f => f.Name)).Nodup) (f : StructField) (hf : f ∈ all) :
    fieldVal all f = f.val := by
  induction all with
  | nil => simp at hf
  | cons a rest ih =>
    simp only [List.map_cons, List.nodup_cons, List.mem_map, not_exists, not_and] at hn
    by_cases ha : a.Name = f.Name
    · have hfa : f = a := by
        rcases List.mem_cons.1 hf with h | h
        · exact h
        · exact absurd ha.symm (hn.1 f h)
      subst hfa
      simp [fieldVal, FieldByName, List.find?_cons]
    · have hfr : f ∈ rest := by
        rcases List.mem_cons.1 hf with h | h
        · exact absurd (by rw [h]) ha
        · exact h
      have := ih hn.2 hfr
      simpa [fieldVal, FieldByName, List.find?_cons, ha] using this

theorem conditions_eq (b : Bean) (h : distinctNames b) :
    (reflectBean b).conditions = (nonZeroFields b).map dbName := by
  unfold reflectBean nonZeroFields
  rw [reflectLoop_conditions]
  simp only [List.nil_append]
  congr 1
  apply List.filter_congr
  intro f hf
  rw [fieldVal_of_nodup b.fields h f hf]

theorem args_eq (b : Bean) (h : distinctNames b) :
    (reflectBean b).args = (nonZeroFields b).map (fun f => f.val) := by
  unfold reflectBean nonZeroFields
  rw [reflectLoop_args]
  simp only [List.nil_append]
  have hfil : b.fields.filter (fun f => !(fieldVal b.fields f).IsZero) =
      b.fields.filter (fun f => !f.val.IsZero) := by
    apply List.filter_congr
    intro f hf
    rw [fieldVal_of_nodup b.fields h f hf]
  rw [hfil]
  apply List.map_congr_left
  intro f hf
  exact fieldVal_of_nodup b.fields h f (List.mem_of_mem_filter hf)

theorem cols_eq (b : Bean) : (reflectBean b).cols = b.fields.map dbName := by
  simp [reflectBean, reflectLoop_cols]

theorem placeholderLoop_eq (cs : List GoString) :
    ∀ acc, placeholderLoop cs acc = acc ++ cs.map placeholder := by
  induction cs with
  | nil => intro acc; simp [placeholderLoop]
  | cons c rest ih => intro acc; simp [placeholderLoop, ih, placeholder]

theorem queryText_eq (b : Bean) :
    queryText b = ascii "SELECT " ++ Join (b.fields.map dbName) (ascii ", ") ++ ascii " FROM " ++
      snakeCaseName b.typeName ++ ascii " WHERE " ++
      Join ((reflectBean b).conditions.map placeholder) (ascii " AND ") ++ ascii " ;" := by
  simp [queryText, placeholderLoop_eq, cols_eq]

/-! ## Lemmas on `Join` and on the placeholders -/

theorem Join_split (sep : GoString) (L : List GoString) :
    ∀ (i : Nat) (hi : i < L.length),
      ∃ post, Join L sep = joinPre (L.take i) sep ++ L[i] ++ post := by
  induction L with
  | nil => intro i hi; simp at hi
  | cons a t ih =>
    intro i hi
    cases t with
    | nil =>
      have hi0 : i = 0 := by simpa using hi
      subst hi0
      exact ⟨[], by simp [Join, joinPre]⟩
    | cons b rest =>
      cases i with
      | zero => exact ⟨sep ++ Join (b :: rest) sep, by simp [Join, joinPre]⟩
      | succ j =>
        have hj : j < (b :: rest).length := by simpa using hi
        obtain ⟨post, hpost⟩ := ih j hj
        refine ⟨post, ?_⟩
        simp only [Join, List.take_succ_cons, joinPre, List.getElem_cons_succ]
        rw [hpost]
        simp [List.append_assoc]

theorem count_Join (x : Nat) (sep : GoString) (hsep : List.count x sep = 0) (n : Nat)
    (L : List GoString) (hL : ∀ a ∈ L, List.count x a = n) :
    List.count x (Join L sep) = n * L.length := by
  induction L with
  | nil => simp [Join]
  | cons a t ih =>
    have ha : List.count x a = n := hL a (by simp)
    have ht : ∀ c ∈ t, List.count x c = n := fun c hc => hL c (by simp [hc])
    cases t with
    | nil => simp [Join, ha]
    | cons b rest =>
      have := ih ht
      simp only [Join, List.count_append, ha, hsep] at this ⊢
      rw [this]
      simp only [List.length_cons]
      ring

theorem count_joinPre (x : Nat) (sep : GoString) (hsep : List.count x sep = 0) (n : Nat)
    (L : List GoString) (hL : ∀ a ∈ L, List.count x a = n) :
    List.count x (joinPre L sep) = n * L.length := by
  induction L with
  | nil => simp [joinPre]
  | cons a t ih =>
    have ha : List.count x a = n := hL a (by simp)
    have ht : ∀ c ∈ t, List.count x c = n := fun c hc => hL c (by simp [hc])
    simp only [joinPre, List.count_append, ha, hsep, ih ht, List.length_cons]
    ring

theorem mem_snakeRuleFrom (s : GoString) :
    ∀ (i d : Nat), d ∈ snakeRuleFrom i s → d ∈ s ∨ d = 95 ∨ (97 ≤ d ∧ d ≤ 122) := by
  induction s with
  | nil => intro i d hd; simp [snakeRuleFrom] at hd
  | cons c rest ih =>
    intro i d hd
    simp only [snakeRuleFrom, List.mem_append] at hd
    rcases hd with hd | hd
    · unfold snakeRulePiece at hd
      split at hd
      · rename_i hu
        split at hd <;> simp at hd <;> omega
      · simp at hd; subst hd; simp
    · rcases ih (i + 1) d hd with h | h
      · exact Or.inl (by simp [h])
      · exact Or.inr h

theorem qmark_not_mem_snakeCaseName (s : GoString) (h : qmark ∉ s) :
    qmark ∉ snakeCaseName s := by
  intro hm
  rw [snakeCaseName_eq_rule] at hm
  rcases mem_snakeRuleFrom s 0 qmark hm with h1 | h1 | h1
  · exact h h1
  · simp [qmark] at h1
  · simp [qmark] at h1

theorem count_placeholder (c : GoString) (h : qmark ∉ c) :
    List.count qmark (placeholder c) = 1 := by
  have h0 : List.count qmark c = 0 := List.count_eq_zero_of_not_mem h
  have h1 : List.count qmark (ascii " ") = 0 := by decide
  have h2 : List.count qmark (ascii " = ? ") = 1 := by decide
  simp [placeholder, List.count_append, h0, h1, h2]

theorem placeholder_split (c : GoString) :
    placeholder c = (ascii " " ++ c ++ ascii " = ") ++ [qmark] ++ ascii " " := by
  have h : ascii " = ? " = ascii " = " ++ [qmark] ++ ascii " " := by decide
  simp [placeholder, h, List.append_assoc]

theorem count_header (b : Bean) (ht : qmark ∉ b.typeName)
    (hf : ∀ f ∈ b.fields, qmark ∉ f.Name) :
    List.count qmark (ascii "SELECT " ++ Join (b.fields.map dbName) (ascii ", ") ++
      ascii " FROM " ++ snakeCaseName b.typeName ++ ascii " WHERE ") = 0 := by
  have hcols : List.count qmark (Join (b.fields.map dbName) (ascii ", ")) = 0 := by
    have := count_Join qmark (ascii ", ") (by decide) 0 (b.fields.map dbName) (by
      intro a ha
      obtain ⟨f, hfm, rfl⟩ := List.mem_map.1 ha
      exact List.count_eq_zero_of_not_mem (qmark_not_mem_snakeCaseName _ (hf f hfm)))
    simpa using this
  have htab : List.count qmark (snakeCaseName b.typeName) = 0 :=
    List.count_eq_zero_of_not_mem (qmark_not_mem_snakeCaseName _ ht)
  have h1 : List.count qmark (ascii "SELECT ") = 0 := by decide
  have h2 : List.count qmark (ascii " FROM ") = 0 := by decide
  have h3 : List.count qmark (ascii " WHERE ") = 0 := by decide
  simp [List.count_append, hcols, htab, h1, h2, h3]

theorem count_placeholders (b : Bean) (hf : ∀ f ∈ b.fields, qmark ∉ f.Name)
    (L : List StructField) (hL : ∀ f ∈ L, f ∈ b.fields) :
    ∀ a ∈ (L.map dbName).map placeholder, List.count qmark a = 1 := by
  intro a ha
  obtain ⟨c, hc, rfl⟩ := List.mem_map.1 ha
  obtain ⟨f, hfm, rfl⟩ := List.mem_map.1 hc
  exact count_placeholder _ (qmark_not_mem_snakeCaseName _ (hf f (hL f hfm)))

/-! ## Lemmas on the all-zero record and on the run -/

theorem filter_allZero (b : Bean) (h : allZero b) :
    b.fields.filter (fun f => !(fieldVal b.fields f).IsZero) = [] := by
  apply List.filter_eq_nil_iff.2
  intro f hf
  obtain ⟨g, hg, hv⟩ := fieldVal_mem b.fields f hf
  simp [hv, h g hg]

theorem conditions_allZero (b : Bean) (h : allZero b) : (reflectBean b).conditions = [] := by
  unfold reflectBean
  rw [reflectLoop_conditions, filter_allZero b h]
  rfl

theorem args_allZero (b : Bean) (h : allZero b) : (reflectBean b).args = [] := by
  unfold reflectBean
  rw [reflectLoop_args, filter_allZero b h]
  rfl

theorem queryText_allZero (b : Bean) (h : allZero b) :
    queryText b = ascii "SELECT " ++ Join (b.fields.map dbName) (ascii ", ") ++ ascii " FROM " ++
      snakeCaseName b.typeName ++ ascii " WHERE  ;" := by
  have hw : ascii " WHERE  ;" = ascii " WHERE " ++ ascii " ;" := by decide
  rw [queryText_eq, conditions_allZero b h, hw]
  simp [Join, List.append_assoc]

theorem submitted_eq (pf : GoString → Nat) (db : Driver) (album : Bean) :
    (jormQueryRow pf db album).submitted = [(queryText album, (reflectBean album).args)] := by
  unfold jormQueryRow
  simp only []
  split
  · rfl
  · split
    · rfl
    · rfl
    · split <;> rfl

/-! ## Lemmas on the length and the alphabet of `snakeCaseName` -/

theorem length_snakeRuleFrom_succ (s : GoString) :
    ∀ i, (snakeRuleFrom (i + 1) s).length = s.length + s.countP isUpperByte := by
  induction s with
  | nil => intro i; simp [snakeRuleFrom]
  | cons c rest ih =>
    intro i
    have h := ih (i + 1)
    by_cases hu : 65 ≤ c ∧ c ≤ 90
    · have hb : isUpperByte c = true := by simp [isUpperByte, hu]
      have hp : (snakeRulePiece (i + 1) c).length = 2 := by simp [snakeRulePiece, hu]
      simp only [snakeRuleFrom, List.length_append, h, hp, List.countP_cons, hb,
        List.length_cons]
      simp
      omega
    · have hb : isUpperByte c = false := by simp [isUpperByte, hu]
      have hp : (snakeRulePiece (i + 1) c).length = 1 := by simp [snakeRulePiece, hu]
      simp only [snakeRuleFrom, List.length_append, h, hp, List.countP_cons, hb,
        List.length_cons]
      simp
      omega

theorem length_snakeCaseName (s : GoString) :
    (snakeCaseName s).length = s.length + s.tail.countP isUpperByte := by
  rw [snakeCaseName_eq_rule]
  cases s with
  | nil => simp [snakeRule, snakeRuleFrom]
  | cons c rest =>
    have h1 : (snakeRulePiece 0 c).length = 1 := by
      unfold snakeRulePiece
      split <;> simp
    simp only [snakeRule, snakeRuleFrom, List.length_append, h1, length_snakeRuleFrom_succ,
      List.tail_cons, List.length_cons]
    omega

theorem lowerToken_snakeRuleFrom (s : GoString) (h : isIdentifier s) :
    ∀ i, isLowerToken (snakeRuleFrom i s) := by
  induction s with
  | nil => intro i d hd; simp [snakeRuleFrom] at hd
  | cons c rest ih =>
    intro i d hd
    have hc : isIdentByte c := h c (by simp)
    have hr : isIdentifier rest := fun e he => h e (by simp [he])
    simp only [snakeRuleFrom, List.mem_append] at hd
    rcases hd with hd | hd
    · unfold snakeRulePiece at hd
      unfold isLowerIdentByte
      unfold isIdentByte at hc
      split at hd
      · split at hd <;> simp at hd <;> omega
      · simp at hd; subst hd; omega
    · exact ih hr (i + 1) d hd

theorem lowerToken_snakeCaseName (s : GoString) (h : isIdentifier s) :
    isLowerToken (snakeCaseName s) := by
  rw [snakeCaseName_eq_rule]; exact lowerToken_snakeRuleFrom s h 0

/-! ## Lemmas on the map `dbName2StructName` -/

theorem mapGet_mapSet_same {α : Type} (m : List (GoString × α)) (k : GoString) (v : α) :
    mapGet (mapSet m k v) k = some v := by
  induction m with
  | nil => simp [mapSet, mapGet]
  | cons p rest ih =>
    obtain ⟨k1, v1⟩ := p
    by_cases h : k1 = k
    · simp [mapSet, mapGet, h]
    · simp [mapSet, mapGet, h, ih]

theorem mapGet_mapSet_other {α : Type} (m : List (GoString × α)) (k k2 : GoString) (v : α)
    (hne : k2 ≠ k) : mapGet (mapSet m k v) k2 = mapGet m k2 := by
  induction m with
  | nil =>
    have h : ¬ k = k2 := fun h => hne h.symm
    simp [mapSet, mapGet, h]
  | cons p rest ih =>
    obtain ⟨k1, v1⟩ := p
    by_cases h : k1 = k
    · have h2 : ¬ k = k2 := fun h => hne h.symm
      have h3 : ¬ k1 = k2 := fun h3 => hne (h3.symm.trans h)
      simp [mapSet, mapGet, h, h2]
    · by_cases h3 : k1 = k2
      · subst h3
        simp [mapSet, mapGet, h]
      · simp [mapSet, mapGet, h, h3, ih]

theorem mapSet_of_not_mem {α : Type} (m : List (GoString × α)) (k : GoString) (v : α)
    (h : k ∉ mapKeys m) : mapSet m k v = m ++ [(k, v)] := by
  induction m with
  | nil => simp [mapSet]
  | cons p rest ih =>
    obtain ⟨k1, v1⟩ := p
    simp only [mapKeys, List.map_cons, List.mem_cons, not_or] at h
    have h1 : ¬ k1 = k := fun e => h.1 e.symm
    have h2 : k ∉ mapKeys rest := h.2
    simp [mapSet, h1, ih h2]

theorem reflectLoop_map (all : List StructField) (fs : List StructField) :
    ∀ st : Plan, (reflectLoop all fs st).dbName2StructName =
      fs.foldl mapStep st.dbName2StructName := by
  induction fs with
  | nil => intro st; simp [reflectLoop]
  | cons f rest ih =>
    intro st
    simp only [reflectLoop, List.foldl_cons]
    split <;> simp [ih, mapStep]

theorem map_eq_foldl (b : Bean) :
    (reflectBean b).dbName2StructName = b.fields.foldl mapStep [] := by
  simp [reflectBean, reflectLoop_map]

theorem foldl_mapStep_inv (P : GoString → GoString → Prop) (fs : List StructField) :
    ∀ m : List (GoString × GoString),
      (∀ k name, mapGet m k = some name → P k name) →
      (∀ f ∈ fs, P (snakeCaseName f.Name) f.Name) →
      ∀ k name, mapGet (fs.foldl mapStep m) k = some name → P k name := by
  induction fs with
  | nil => intro m hm _ k name h; exact hm k name h
  | cons f rest ih =>
    intro m hm hfs k name h
    simp only [List.foldl_cons] at h
    refine ih (mapStep m f) ?_ (fun g hg => hfs g (by simp [hg])) k name h
    intro k2 name2 h2
    by_cases hk : k2 = snakeCaseName f.Name
    · subst hk
      rw [mapStep, mapGet_mapSet_same] at h2
      cases h2
      exact hfs f (by simp)
    · rw [mapStep, mapGet_mapSet_other _ _ _ _ hk] at h2
      exact hm k2 name2 h2

theorem foldl_mapStep_key (fs : List StructField) :
    ∀ (m : List (GoString × GoString)) (k : GoString),
      ((mapGet m k).isSome ∨ ∃ f ∈ fs, snakeCaseName f.Name = k) →
      (mapGet (fs.foldl mapStep m) k).isSome := by
  induction fs with
  | nil =>
    intro m k h
    rcases h with h | ⟨f, hf, _⟩
    · exact h
    · simp at hf
  | cons f rest ih =>
    intro m k h
    simp only [List.foldl_cons]
    apply ih
    by_cases hk : k = snakeCaseName f.Name
    · left; subst hk; simp [mapStep, mapGet_mapSet_same]
    · rcases h with h | ⟨g, hg, hgk⟩
      · left; rw [mapStep, mapGet_mapSet_other _ _ _ _ hk]; exact h
      · rcases List.mem_cons.1 hg with e | e
        · subst e; exact absurd hgk.symm hk
        · right; exact ⟨g, e, hgk⟩

theorem map_entry_sound (b : Bean) (k name : GoString)
    (h : mapGet (reflectBean b).dbName2StructName k = some name) :
    snakeCaseName name = k ∧ ∃ f ∈ b.fields, f.Name = name := by
  rw [map_eq_foldl] at h
  exact foldl_mapStep_inv (fun k name => snakeCaseName name = k ∧ ∃ f ∈ b.fields, f.Name = name)
    b.fields [] (by intro k name h; simp [mapGet] at h) (fun f hf => ⟨rfl, f, hf, rfl⟩) k name h

theorem map_key_of_col (b : Bean) (c : GoString) (hc : c ∈ (reflectBean b).cols) :
    ∃ name, mapGet (reflectBean b).dbName2StructName c = some name := by
  rw [cols_eq] at hc
  obtain ⟨f, hf, rfl⟩ := List.mem_map.1 hc
  have := foldl_mapStep_key b.fields [] (dbName f) (Or.inr ⟨f, hf, rfl⟩)
  rw [← map_eq_foldl] at this
  exact Option.isSome_iff_exists.1 this

theorem foldl_mapStep_nodup (fs : List StructField) :
    ∀ m : List (GoString × GoString),
      (mapKeys m ++ fs.map dbName).Nodup →
      fs.foldl mapStep m = m ++ fs.map (fun f => (snakeCaseName f.Name, f.Name)) := by
  induction fs with
  | nil => intro m _; simp
  | cons f rest ih =>
    intro m h
    have hk : snakeCaseName f.Name ∉ mapKeys m := by
      intro hm
      have := (List.nodup_append.1 h).2.2
      exact this hm (by simp [dbName])
    have h2 : (mapKeys (m ++ [(snakeCaseName f.Name, f.Name)]) ++ rest.map dbName).Nodup := by
      simpa [mapKeys, dbName, List.append_assoc] using h
    simp only [List.foldl_cons, mapStep, mapSet_of_not_mem m _ _ hk]
    rw [ih _ h2]
    simp

/-! ## Lemmas on the decoding loop -/

theorem setField_names (fs : List StructField) (name : GoString) (v : Value) :
    (setField fs name v).map (fun f => f.Name) = fs.map (fun f => f.Name) := by
  induction fs with
  | nil => simp [setField]
  | cons f rest ih =>
    by_cases h : f.Name = name
    · simp [setField, h]
    · simp [setField, h, ih]

theorem setField_getElem_of_ne (fs : List StructField) (name : GoString) (v : Value) :
    ∀ (i : Nat) (f : StructField), fs[i]? = some f → f.Name ≠ name →
      (setField fs name v)[i]? = some f := by
  induction fs with
  | nil => intro i f h; simp at h
  | cons g rest ih =>
    intro i f h hne
    by_cases hg : g.Name = name
    · cases i with
      | zero =>
        simp at h
        subst h
        exact absurd hg hne
      | succ j => simpa [setField, hg] using h
    · cases i with
      | zero => simpa [setField, hg] using h
      | succ j =>
        simp only [setField, hg, if_false, List.getElem?_cons_succ] at h ⊢
        exact ih j f h hne

theorem FieldByName_of_mem (fs : List StructField) (name : GoString)
    (h : name ∈ fs.map (fun f => f.Name)) :
    ∃ f, FieldByName fs name = some f ∧ f.Name = name := by
  induction fs with
  | nil => simp at h
  | cons g rest ih =>
    by_cases hg : g.Name = name
    · exact ⟨g, by simp [FieldByName, List.find?_cons, hg], hg⟩
    · have hr : name ∈ rest.map (fun f => f.Name) := by
        simp only [List.map_cons, List.mem_cons] at h
        rcases h with h | h
        · exact absurd h.symm hg
        · exact h
      obtain ⟨f, hf, hn⟩ := ih hr
      refine ⟨f, ?_, hn⟩
      unfold FieldByName at hf ⊢
      simp [List.find?_cons, hg, hf]

theorem decodeLoop_ok (pf : GoString → Nat) (m : List (GoString × GoString)) (raw : RawRow) :
    ∀ fields : List StructField,
      (∀ key ∈ mapKeys raw, ∃ name, mapGet m key = some name ∧
        name ∈ fields.map (fun f => f.Name)) →
      ∃ out, decodeLoop pf m raw fields = .ok out := by
  induction raw with
  | nil => intro fields _; exact ⟨fields, rfl⟩
  | cons p rest ih =>
    intro fields h
    obtain ⟨key, data⟩ := p
    obtain ⟨name, hget, hmem⟩ := h key (by simp [mapKeys])
    obtain ⟨f, hf, _⟩ := FieldByName_of_mem fields name hmem
    simp only [decodeLoop, hget, Option.getD_some, hf]
    apply ih
    intro k hk
    obtain ⟨n2, hg2, hm2⟩ := h k (by simp only [mapKeys, List.map_cons, List.mem_cons]; exact Or.inr hk)
    exact ⟨n2, hg2, by rw [setField_names]; exact hm2⟩

theorem decodeLoop_frame (pf : GoString → Nat) (m : List (GoString × GoString)) (raw : RawRow) :
    ∀ (fields out : List StructField), decodeLoop pf m raw fields = .ok out →
      out.map (fun f => f.Name) = fields.map (fun f => f.Name) ∧
      ∀ (i : Nat) (f : StructField), fields[i]? = some f →
        (∀ key ∈ mapKeys raw, (mapGet m key).getD [] ≠ f.Name) → out[i]? = some f := by
  induction raw with
  | nil =>
    intro fields out h
    simp only [decodeLoop, Except.ok.injEq] at h
    subst h
    exact ⟨rfl, fun i f hf _ => hf⟩
  | cons p rest ih =>
    intro fields out h
    obtain ⟨key, data⟩ := p
    simp only [decodeLoop] at h
    cases hfb : FieldByName fields ((mapGet m key).getD []) with
    | none => rw [hfb] at h; simp at h
    | some g =>
      rw [hfb] at h
      simp only at h
      obtain ⟨hn, hfr⟩ := ih _ out h
      have hgname : g.Name = (mapGet m key).getD [] := (FieldByName_mem _ _ _ hfb).2
      refine ⟨by rw [hn, setField_names], ?_⟩
      intro i f hf hkeys
      apply hfr i f
      · apply setField_getElem_of_ne fields _ _ i f hf
        rw [hgname]
        exact fun e => hkeys key (by simp [mapKeys]) e.symm
      · intro k hk
        exact hkeys k (by simp only [mapKeys, List.map_cons, List.mem_cons]; exact Or.inr hk)

/-! ## Lemmas on `FormatInt` and `ParseInt` -/

theorem formatNatAux_spec : ∀ (fuel n : Nat) (acc : List Nat), n < fuel →
    ∃ ds, formatNatAux fuel n acc = ds ++ acc ∧ ds ≠ [] ∧ (∀ d ∈ ds, 48 ≤ d ∧ d ≤ 57) ∧
      ∀ (rest : List Nat) (a : Nat),
        parseDigits (ds ++ rest) a = parseDigits rest (a * 10 ^ ds.length + n) := by
  intro fuel
  induction fuel with
  | zero => intro n acc h; omega
  | succ fuel ih =>
    intro n acc h
    by_cases hn : n < 10
    · refine ⟨[48 + n], by simp [formatNatAux, hn], by simp, ?_, ?_⟩
      · intro d hd
        simp at hd
        omega
      · intro rest a
        have h1 : 48 + n ≤ 57 := by omega
        simp [parseDigits, h1]
    · have hlt : n / 10 < fuel := by omega
      obtain ⟨ds, hds, _, hdig, hparse⟩ := ih (n / 10) ((48 + n % 10) :: acc) hlt
      refine ⟨ds ++ [48 + n % 10], ?_, by simp, ?_, ?_⟩
      · simp [formatNatAux, hn, hds]
      · intro d hd
        rcases List.mem_append.1 hd with h1 | h1
        · exact hdig d h1
        · simp at h1
          omega
      · intro rest a
        have h1 : 48 + n % 10 ≤ 57 := by omega
        rw [List.append_assoc, hparse]
        simp only [List.singleton_append, parseDigits, Nat.le_add_right, h1, and_self, if_true,
          Nat.add_sub_cancel_left, List.length_append, List.length_singleton]
        congr 1
        have := Nat.div_add_mod n 10
        rw [pow_succ]
        nlinarith [Nat.div_add_mod n 10]

theorem parseDigits_ge : ∀ (ds : List Nat) (acc v : Nat),
    parseDigits ds acc = some v → acc ≤ v := by
  intro ds
  induction ds with
  | nil => intro acc v h; simp [parseDigits] at h; omega
  | cons c rest ih =>
    intro acc v h
    by_cases hc : 48 ≤ c ∧ c ≤ 57
    · simp only [parseDigits, hc, and_self, if_true] at h
      have := ih _ _ h
      omega
    · simp [parseDigits, hc] at h

theorem parseUintLoop_of_parseDigits : ∀ (ds : List Nat) (acc v : Nat),
    parseDigits ds acc = some v → v ≤ 18446744073709551615 →
    parseUintLoop ds acc = .ok v := by
  intro ds
  induction ds with
  | nil => intro acc v h _; simp [parseDigits] at h; simp [parseUintLoop, h]
  | cons c rest ih =>
    intro acc v h hv
    by_cases hc : 48 ≤ c ∧ c ≤ 57
    · simp only [parseDigits, hc, and_self, if_true] at h
      have hge := parseDigits_ge _ _ _ h
      have h1 : ¬ (acc ≥ 1844674407370955162) := by omega
      have h2 : ¬ (acc * 10 + (c - 48) > 18446744073709551615) := by omega
      simp only [parseUintLoop, hc, and_self, if_true, h1, h2, if_false]
      exact ih _ _ h hv
    · simp [parseDigits, hc] at h

theorem ParseUint_of_parseDigits (ds : List Nat) (v : Nat) (hne : ds ≠ [])
    (h : parseDigits ds 0 = some v) (hv : v ≤ 18446744073709551615) :
    ParseUint ds = (v, none) := by
  simp [ParseUint, hne, parseUintLoop_of_parseDigits ds 0 v h hv]

theorem ParseInt_FormatInt (n : Int) (h : inInt64 n) : ParseInt (FormatInt n) = (n, false) := by
  obtain ⟨hlo, hhi⟩ := h
  obtain ⟨ds, hds, hne, hdig, hparse⟩ := formatNatAux_spec (n.natAbs + 1) n.natAbs [] (by omega)
  have hp : parseDigits ds 0 = some n.natAbs := by
    have := hparse [] 0
    simpa [parseDigits] using this
  have hu : ParseUint ds = (n.natAbs, none) :=
    ParseUint_of_parseDigits ds n.natAbs hne hp (by omega)
  rw [List.append_nil] at hds
  obtain ⟨c, rest, hcr⟩ := List.exists_cons_of_ne_nil hne
  have hc : 48 ≤ c ∧ c ≤ 57 := hdig c (by simp [hcr])
  unfold FormatInt
  by_cases hneg : n < 0
  · have hk2 : ¬ (n.natAbs > 9223372036854775808) := by omega
    have hval : -|n| = n := by rw [abs_of_neg hneg]; omega
    simp [hneg, hds, ParseInt, hu, hk2, hval]
  · have hval : |n| = n := abs_of_nonneg (by omega)
    have h43 : ¬ c = 43 := by omega
    have h45 : ¬ c = 45 := by omega
    have hk3 : ¬ (9223372036854775808 ≤ n.natAbs) := by omega
    simp only [hneg, if_false, hds]
    rw [hcr] at hu ⊢
    simp [ParseInt, h43, h45, hu, hk3, hval]

theorem ParseInt_range_before_invalid :
    ParseInt (ascii "99999999999999999999x") = (9223372036854775807, true) ∧
    ParseInt (ascii "-99999999999999999999x") = (-9223372036854775808, true) ∧
    ParseInt (ascii "12x") = (0, true) ∧
    ParseInt (ascii "18446744073709551616") = (9223372036854775807, true) := by
  decide

/-! ## Lemmas on row capture -/

theorem captureLoop_spec (cols : List GoString) :
    ∀ (cells : List Cell) (acc : RawRow), cols.Nodup → capturable cells →
      ∃ raw, captureLoop cols cells acc = .ok raw ∧
        (∀ key cell, (key, cell) ∈ cols.zip cells →
          mapGet raw key = match cellBytes cell with
            | some v => some v
            | none => mapGet acc key) ∧
        (∀ key, key ∉ (cols.zip cells).map Prod.fst → mapGet raw key = mapGet acc key) := by
  induction cols with
  | nil => intro cells acc _ _; exact ⟨acc, by simp [captureLoop]⟩
  | cons k cols ih =>
    intro cells acc hnd hnn
    cases cells with
    | nil => exact ⟨acc, by simp [captureLoop]⟩
    | cons cell cells =>
      have hk : k ∉ cols := (List.nodup_cons.1 hnd).1
      have hnd2 : cols.Nodup := (List.nodup_cons.1 hnd).2
      have hnn2 : capturable cells := fun x hx => hnn x (List.mem_cons_of_mem _ hx)
      have hcell : cell.captures = true := hnn cell (by simp)
      have hkz : k ∉ (cols.zip cells).map Prod.fst := by
        intro h
        obtain ⟨p, hp, hpk⟩ := List.mem_map.1 h
        obtain ⟨a, c⟩ := p
        have := (List.of_mem_zip hp).1
        simp only at hpk
        subst hpk
        exact hk this
      have step : ∀ acc2 : RawRow,
          (mapGet acc2 k = match cellBytes cell with
            | some v => some v
            | none => mapGet acc k) →
          (∀ key, key ≠ k → mapGet acc2 key = mapGet acc key) →
          captureLoop (k :: cols) (cell :: cells) acc = captureLoop cols cells acc2 →
          ∃ raw, captureLoop (k :: cols) (cell :: cells) acc = .ok raw ∧
            (∀ key c, (key, c) ∈ (k :: cols).zip (cell :: cells) →
              mapGet raw key = match cellBytes c with
                | some v => some v
                | none => mapGet acc key) ∧
            (∀ key, key ∉ ((k :: cols).zip (cell :: cells)).map Prod.fst →
              mapGet raw key = mapGet acc key) := by
        intro acc2 hhead hother heq
        obtain ⟨raw, hraw, hin, hout⟩ := ih cells acc2 hnd2 hnn2
        refine ⟨raw, by rw [heq, hraw], ?_, ?_⟩
        · intro key c hmem
          simp only [List.zip_cons_cons, List.mem_cons, Prod.mk.injEq] at hmem
          rcases hmem with ⟨rfl, rfl⟩ | hmem
          · rw [hout key hkz]; exact hhead
          · have hne : key ≠ k := by
              intro e
              subst e
              exact hk (List.of_mem_zip hmem).1
            rw [hin key c hmem, hother key hne]
        · intro key hkey
          simp only [List.zip_cons_cons, List.map_cons, List.mem_cons, not_or] at hkey
          rw [hout key hkey.2, hother key hkey.1]
      cases cell with
      | int64 n =>
        exact step (mapSet acc k (FormatInt n)) (by simp [cellBytes, mapGet_mapSet_same])
          (fun key hne => mapGet_mapSet_other acc k key _ hne) (by simp [captureLoop])
      | bytes v =>
        exact step (mapSet acc k v) (by simp [cellBytes, mapGet_mapSet_same])
          (fun key hne => mapGet_mapSet_other acc k key _ hne) (by simp [captureLoop])
      | null => simp [Cell.captures] at hcell
      | namedBytes v => simp [Cell.captures] at hcell
      | other =>
        exact step acc (by simp [cellBytes]) (fun _ _ => rfl) (by simp [captureLoop])

theorem captureLoop_ok (cols : List GoString) :
    ∀ (cells : List Cell) (acc : RawRow), capturable cells →
      ∃ raw, captureLoop cols cells acc = .ok raw := by
  induction cols with
  | nil => intro cells acc _; exact ⟨acc, by simp [captureLoop]⟩
  | cons k cols ih =>
    intro cells acc hnn
    cases cells with
    | nil => exact ⟨acc, by simp [captureLoop]⟩
    | cons cell cells =>
      have hnn2 : capturable cells := fun x hx => hnn x (List.mem_cons_of_mem _ hx)
      have hcell : cell.captures = true := hnn cell (by simp)
      cases cell with
      | int64 n => simpa [captureLoop] using ih cells _ hnn2
      | bytes v => simpa [captureLoop] using ih cells _ hnn2
      | null => simp [Cell.captures] at hcell
      | namedBytes v => simp [Cell.captures] at hcell
      | other => simpa [captureLoop] using ih cells _ hnn2

theorem rowsLoop_ok (cols : List GoString) (more : List (List Cell)) :
    ∀ acc : List RawRow, (∀ r ∈ more, capturable r) →
      ∃ rs, rowsLoop cols more acc = .ok (acc ++ rs) := by
  induction more with
  | nil => intro acc _; exact ⟨[], by simp [rowsLoop]⟩
  | cons r more ih =>
    intro acc h
    obtain ⟨raw, hraw⟩ := captureLoop_ok cols r [] (h r (by simp))
    obtain ⟨rs, hrs⟩ := ih (acc ++ [raw]) (fun x hx => h x (by simp [hx]))
    exact ⟨raw :: rs, by simp [rowsLoop, hraw, hrs]⟩

theorem result_first_row (pf : GoString → Nat) (db : Driver) (b : Bean)
    (cols : List GoString) (row : List Cell) (more : List (List Cell))
    (hdb : db (queryText b) (reflectBean b).args = some ⟨cols, row :: more⟩)
    (hn : ∀ r ∈ more, capturable r) :
    (jormQueryRow pf db b).result = firstRowOutcome pf b cols row := by
  unfold jormQueryRow firstRowOutcome
  simp only [hdb, rowsLoop]
  cases hc : captureLoop cols row [] with
  | error p => rfl
  | ok raw =>
    obtain ⟨rs, hrs⟩ := rowsLoop_ok cols more [raw] hn
    simp only [List.nil_append, hrs, List.singleton_append]
    cases decodeLoop pf (reflectBean b).dbName2StructName raw b.fields <;> rfl

/-! ## Lemmas on the run for `Album` -/

theorem album_map (id : Int) (title artist : GoString) (price : Nat) :
    (reflectBean (Album id title artist price)).dbName2StructName = albumMap := by
  rw [map_eq_foldl]
  rfl

theorem album_decode_three (pf : GoString → Nat) (id : Int) (title artist : GoString)
    (price : Nat) (d T A : GoString) :
    decodeLoop pf albumMap [(ascii "id", d), (ascii "title", T), (ascii "artist", A)]
      (Album id title artist price).fields =
      .ok (Album (ParseInt d).1 T A price).fields := by
  rfl

theorem album_decode_four (pf : GoString → Nat) (id : Int) (title artist : GoString)
    (price : Nat) (d T A P : GoString) :
    decodeLoop pf albumMap
      [(ascii "id", d), (ascii "title", T), (ascii "artist", A), (ascii "price", P)]
      (Album id title artist price).fields =
      .ok (Album (ParseInt d).1 T A (pf P)).fields := by
  rfl

theorem album_first_row (pf : GoString → Nat) (id : Int) (title artist : GoString)
    (price : Nat) (I : Int) (T A : GoString) (c : Cell) (hc : c.captures = true) :
    ∃ p, firstRowOutcome pf (Album id title artist price) albumCols
      [.int64 I, .bytes T, .bytes A, c] = .ok (Album (ParseInt (FormatInt I)).1 T A p) := by
  cases c with
  | null => simp [Cell.captures] at hc
  | namedBytes v => simp [Cell.captures] at hc
  | int64 n =>
    refine ⟨pf (FormatInt n), ?_⟩
    have hcap : captureLoop albumCols [.int64 I, .bytes T, .bytes A, .int64 n] [] =
        .ok [(ascii "id", FormatInt I), (ascii "title", T), (ascii "artist", A),
          (ascii "price", FormatInt n)] := rfl
    simp only [firstRowOutcome, hcap, album_map, album_decode_four]
    rfl
  | bytes v =>
    refine ⟨pf v, ?_⟩
    have hcap : captureLoop albumCols [.int64 I, .bytes T, .bytes A, .bytes v] [] =
        .ok [(ascii "id", FormatInt I), (ascii "title", T), (ascii "artist", A),
          (ascii "price", v)] := rfl
    simp only [firstRowOutcome, hcap, album_map, album_decode_four]
    rfl
  | other =>
    refine ⟨price, ?_⟩
    have hcap : captureLoop albumCols [.int64 I, .bytes T, .bytes A, .other] [] =
        .ok [(ascii "id", FormatInt I), (ascii "title", T), (ascii "artist", A)] := rfl
    simp only [firstRowOutcome, hcap, album_map, album_decode_three]
    rfl

/-! ## Properties of `snakeCaseName` -/

/-- C1: `snakeCaseName` equals the bit-exact reference rule on every byte
string, and maps the listed identifiers to the listed names. -/
theorem snakeCaseName_refines_rule :
    (∀ s : GoString, snakeCaseName s = snakeRule s) ∧
    snakeCaseName (ascii "Album") = ascii "album" ∧
    snakeCaseName (ascii "FirstName") = ascii "first_name" ∧
    snakeCaseName (ascii "Id") = ascii "id" ∧
    snakeCaseName (ascii "HTTPServer") = ascii "h_t_t_p_server" ∧
    snakeCaseName (ascii "UserAccount") = ascii "user_account" ∧
    snakeCaseName (ascii "CreatedAt") = ascii "created_at" ∧
    snakeCaseName (ascii "HTTPCode") = ascii "h_t_t_p_code" :=
  ⟨snakeCaseName_eq_rule, by decide, by decide, by decide, by decide, by decide,
    by decide, by decide⟩

/-- C2: identity law, an identifier with no byte in `A..Z` is returned
unchanged by `snakeCaseName`. -/
theorem snakeCaseName_identity (s : GoString) (h : noUpper s) : snakeCaseName s = s :=
  snakeCaseName_of_noUpper s h

theorem snakeCaseName_identity_witness :
    noUpper (ascii "created_at") ∧ snakeCaseName (ascii "created_at") = ascii "created_at" :=
  ⟨by decide, snakeCaseName_identity (ascii "created_at") (by decide)⟩

/-- C3: idempotence, for every byte string (ASCII or not) the first
`snakeCaseName` leaves no byte in `A..Z`, and applying `snakeCaseName` twice
gives the same result as applying it once. -/
theorem snakeCaseName_idempotent (s : GoString) :
    noUpper (snakeCaseName s) ∧ snakeCaseName (snakeCaseName s) = snakeCaseName s :=
  ⟨snakeCaseName_noUpper s, snakeCaseName_of_noUpper _ (snakeCaseName_noUpper s)⟩

/-! ## Properties of the statement builder -/

/-- C4: projection order, the column list built by the first loop is the
list of snake-cased field names in declaration order, and the statement
starts with `SELECT `, those names joined with `, `, ` FROM ` and the
snake-cased type name. -/
theorem projection_order (b : Bean) :
    (reflectBean b).cols = b.fields.map (fun f => snakeCaseName f.Name) ∧
    (ascii "SELECT " ++ Join (b.fields.map (fun f => snakeCaseName f.Name)) (ascii ", ") ++
      ascii " FROM " ++ snakeCaseName b.typeName) <+: queryText b := by
  refine ⟨cols_eq b, ?_⟩
  rw [queryText_eq]
  refine ⟨ascii " WHERE " ++
      Join ((reflectBean b).conditions.map placeholder) (ascii " AND ") ++ ascii " ;", ?_⟩
  simp only [List.append_assoc]
  rfl

/-- C5: predicate subset law, for a record with distinct field names the
predicate list is the list of snake-cased names of exactly the non-zero
fields, in declaration order, and the argument list holds their values; the
record `{Id=0, Title="Blue Train", Artist="", Price=0}` yields the single
predicate `title` with argument `"Blue Train"`. -/
theorem predicate_subset (b : Bean) (h : distinctNames b) :
    (reflectBean b).conditions =
      (b.fields.filter (fun f => !f.val.IsZero)).map (fun f => snakeCaseName f.Name) ∧
    (reflectBean b).args = (b.fields.filter (fun f => !f.val.IsZero)).map (fun f => f.val) ∧
    (reflectBean (Album 0 (ascii "Blue Train") [] 0)).conditions = [ascii "title"] ∧
    (reflectBean (Album 0 (ascii "Blue Train") [] 0)).args = [.str (ascii "Blue Train")] :=
  ⟨conditions_eq b h, args_eq b h, by decide, by decide⟩

theorem predicate_subset_witness :
    distinctNames (Album 1 (ascii "Blue Train") [] 0) ∧
    (reflectBean (Album 1 (ascii "Blue Train") [] 0)).conditions = [ascii "id", ascii "title"] ∧
    (reflectBean (Album 1 (ascii "Blue Train") [] 0)).args =
      [.int64 1, .str (ascii "Blue Train")] := by
  have h := predicate_subset (Album 1 (ascii "Blue Train") [] 0) (by decide)
  exact ⟨by decide, by rw [h.1]; decide, by rw [h.2.1]; decide⟩

/-- C7: exact statement text, for a record with distinct field names the
statement is `SELECT ` + the columns joined with `, ` + ` FROM ` + the table
name + ` WHERE ` + the texts ` p = ? ` of the predicates joined with ` AND `
+ ` ;`; on `Album` with only `Id=1` it is
`SELECT id, title, artist, price FROM album WHERE  id = ?  ;` with arguments
`[1]`, and with `Id=1`, `Title="Blue Train"` the clause holds
`id = ?  AND  title = ?` with arguments `[1, "Blue Train"]`. -/
theorem statement_text (b : Bean) (h : distinctNames b) :
    queryText b =
      ascii "SELECT " ++ Join (b.fields.map (fun f => snakeCaseName f.Name)) (ascii ", ") ++
      ascii " FROM " ++ snakeCaseName b.typeName ++ ascii " WHERE " ++
      Join (((b.fields.filter (fun f => !f.val.IsZero)).map (fun f => snakeCaseName f.Name)).map
        (fun p => ascii " " ++ p ++ ascii " = ? ")) (ascii " AND ") ++ ascii " ;" ∧
    queryText (Album 1 [] [] 0) =
      ascii "SELECT id, title, artist, price FROM album WHERE  id = ?  ;" ∧
    (reflectBean (Album 1 [] [] 0)).args = [.int64 1] ∧
    queryText (Album 1 (ascii "Blue Train") [] 0) =
      ascii "SELECT id, title, artist, price FROM album WHERE  id = ?  AND  title = ?  ;" ∧
    ascii "id = ?  AND  title = ?" <:+: queryText (Album 1 (ascii "Blue Train") [] 0) ∧
    (reflectBean (Album 1 (ascii "Blue Train") [] 0)).args =
      [.int64 1, .str (ascii "Blue Train")] := by
  refine ⟨?_, by decide, by decide, by decide, by decide, by decide⟩
  rw [queryText_eq, conditions_eq b h]
  rfl

theorem statement_text_witness :
    distinctNames (Album 0 [] (ascii "John Coltrane") 0) ∧
    queryText (Album 0 [] (ascii "John Coltrane") 0) =
      ascii "SELECT id, title, artist, price FROM album WHERE  artist = ?  ;" := by
  have h := (statement_text (Album 0 [] (ascii "John Coltrane") 0) (by decide)).1
  exact ⟨by decide, by rw [h]; decide⟩

/-- C6: argument alignment, for a record with distinct field names whose
type name and field names hold no `?`, the number of `?` in the statement
equals the length of the argument vector, which equals the number of
predicates (the non-zero fields); and for every `i` the `?` that has exactly
`i` others before it stands right after ` c = `, where `c` is the column of
the `i`-th non-zero field and `args[i]` is the value of that field. -/
theorem argument_alignment (b : Bean) (hd : distinctNames b)
    (ht : qmark ∉ b.typeName) (hf : ∀ f ∈ b.fields, qmark ∉ f.Name) :
    List.count qmark (queryText b) = (reflectBean b).args.length ∧
    (reflectBean b).args.length = (reflectBean b).conditions.length ∧
    (reflectBean b).conditions.length = (nonZeroFields b).length ∧
    ∀ (i : Nat) (hi : i < (nonZeroFields b).length),
      (reflectBean b).conditions[i]? = some (snakeCaseName ((nonZeroFields b)[i]).Name) ∧
      (reflectBean b).args[i]? = some ((nonZeroFields b)[i]).val ∧
      ∃ pre post, queryText b = pre ++ [qmark] ++ post ∧ List.count qmark pre = i ∧
        (ascii " " ++ snakeCaseName ((nonZeroFields b)[i]).Name ++ ascii " = ") <:+ pre := by
  have hc := conditions_eq b hd
  have ha := args_eq b hd
  have hsub : ∀ f ∈ nonZeroFields b, f ∈ b.fields := fun f h => List.mem_of_mem_filter h
  have hones := count_placeholders b hf (nonZeroFields b) hsub
  have hsep : List.count qmark (ascii " AND ") = 0 := by decide
  have hend : List.count qmark (ascii " ;") = 0 := by decide
  have hq := queryText_eq b
  rw [hc] at hq
  refine ⟨?_, by rw [hc, ha]; simp, by rw [hc]; simp, ?_⟩
  · rw [hq, List.count_append, List.count_append, count_header b ht hf,
      count_Join qmark _ hsep 1 _ hones, hend, ha]
    simp
  · intro i hi
    refine ⟨by rw [hc]; simp [hi, dbName], by rw [ha]; simp [hi], ?_⟩
    have hi2 : i < ((nonZeroFields b).map dbName |>.map placeholder).length := by simpa using hi
    obtain ⟨post, hpost⟩ := Join_split (ascii " AND ") _ i hi2
    have hget : ((nonZeroFields b).map dbName |>.map placeholder)[i] =
        placeholder (snakeCaseName ((nonZeroFields b)[i]).Name) := by
      simp [dbName]
    rw [hget, placeholder_split] at hpost
    refine ⟨ascii "SELECT " ++ Join (b.fields.map dbName) (ascii ", ") ++ ascii " FROM " ++
        snakeCaseName b.typeName ++ ascii " WHERE " ++
        (joinPre (((nonZeroFields b).map dbName |>.map placeholder).take i) (ascii " AND ") ++
          (ascii " " ++ snakeCaseName ((nonZeroFields b)[i]).Name ++ ascii " = ")),
      ascii " " ++ post ++ ascii " ;", ?_, ?_, ?_⟩
    · rw [hq, hpost]
      simp only [List.append_assoc]
    · have hpre : List.count qmark
          (joinPre (((nonZeroFields b).map dbName |>.map placeholder).take i) (ascii " AND ")) =
          i := by
        have := count_joinPre qmark (ascii " AND ") hsep 1
          (((nonZeroFields b).map dbName |>.map placeholder).take i)
          (fun a ha => hones a (List.mem_of_mem_take ha))
        rw [this, List.length_take]
        simp
        omega
      have hname : List.count qmark (snakeCaseName ((nonZeroFields b)[i]).Name) = 0 :=
        List.count_eq_zero_of_not_mem (qmark_not_mem_snakeCaseName _
          (hf _ (hsub _ (List.getElem_mem _))))
      have h1 : List.count qmark (ascii " ") = 0 := by decide
      have h2 : List.count qmark (ascii " = ") = 0 := by decide
      rw [List.count_append, count_header b ht hf, List.count_append, hpre]
      simp [List.count_append, hname, h1, h2]
    · refine ⟨ascii "SELECT " ++ Join (b.fields.map dbName) (ascii ", ") ++ ascii " FROM " ++
        snakeCaseName b.typeName ++ ascii " WHERE " ++
        joinPre (((nonZeroFields b).map dbName |>.map placeholder).take i) (ascii " AND "), ?_⟩
      simp only [List.append_assoc]

theorem argument_alignment_witness :
    distinctNames (Album 1 (ascii "Blue Train") [] 0) ∧
    List.count qmark (queryText (Album 1 (ascii "Blue Train") [] 0)) =
      (reflectBean (Album 1 (ascii "Blue Train") [] 0)).args.length ∧
    (reflectBean (Album 1 (ascii "Blue Train") [] 0)).args.length = 2 := by
  have h := argument_alignment (Album 1 (ascii "Blue Train") [] 0) (by decide) (by decide)
    (by decide)
  exact ⟨by decide, h.1, by decide⟩

/-! ## Properties of the run on an all-zero record and on an empty result -/

/-- C8, as stated, fails: on the all-zero `Album` the run hands the statement
`SELECT id, title, artist, price FROM album WHERE  ;` to the driver, and with
a driver that answers that text with one row the run ends with the record
loaded, not with an error. -/
theorem empty_predicate_counterexample :
    allZero (Album 0 [] [] 0) ∧
    (jormQueryRow (fun _ => 0)
      (fun q _ =>
        if q = ascii "SELECT id, title, artist, price FROM album WHERE  ;" then
          some ⟨[ascii "id", ascii "title"], [[.int64 7, .bytes (ascii "Blue Train")]]⟩
        else none)
      (Album 0 [] [] 0)).submitted =
      [(ascii "SELECT id, title, artist, price FROM album WHERE  ;", [])] ∧
    (jormQueryRow (fun _ => 0)
      (fun q _ =>
        if q = ascii "SELECT id, title, artist, price FROM album WHERE  ;" then
          some ⟨[ascii "id", ascii "title"], [[.int64 7, .bytes (ascii "Blue Train")]]⟩
        else none)
      (Album 0 [] [] 0)).result = .ok (Album 7 (ascii "Blue Train") [] 0) := by
  decide

/-- C8, amended: on a record in which every field is zero the run raises no
error before submission; it hands exactly one statement to the driver, the
text `SELECT <cols> FROM <table> WHERE  ;` with an empty argument vector. -/
theorem empty_predicate_submits (pf : GoString → Nat) (db : Driver) (b : Bean)
    (h : allZero b) :
    (jormQueryRow pf db b).submitted =
      [(ascii "SELECT " ++ Join (b.fields.map (fun f => snakeCaseName f.Name)) (ascii ", ") ++
        ascii " FROM " ++ snakeCaseName b.typeName ++ ascii " WHERE  ;", [])] := by
  rw [submitted_eq, queryText_allZero b h, args_allZero b h]
  rfl

theorem empty_predicate_submits_witness :
    allZero (Album 0 [] [] 0) ∧
    (jormQueryRow (fun _ => 0) (fun _ _ => none) (Album 0 [] [] 0)).submitted =
      [(ascii "SELECT id, title, artist, price FROM album WHERE  ;", [])] := by
  have h := empty_predicate_submits (fun _ => 0) (fun _ _ => none) (Album 0 [] [] 0) (by decide)
  exact ⟨by decide, by rw [h]; decide⟩

/-- C9, as stated, fails: the all-zero `Album` has an empty predicate list,
yet its statement text contains `WHERE`. -/
theorem no_where_counterexample :
    allZero (Album 0 [] [] 0) ∧ (reflectBean (Album 0 [] [] 0)).conditions = [] ∧
    ascii "WHERE" <:+: queryText (Album 0 [] [] 0) := by
  decide

/-- C9, amended: on a record in which every field is zero the predicate list
and the argument vector are empty and the statement is
`SELECT <cols> FROM <table> WHERE  ;`, the keyword `WHERE` followed by an
empty condition clause. -/
theorem all_zero_statement (b : Bean) (h : allZero b) :
    (reflectBean b).conditions = [] ∧ (reflectBean b).args = [] ∧
    queryText b =
      ascii "SELECT " ++ Join (b.fields.map (fun f => snakeCaseName f.Name)) (ascii ", ") ++
        ascii " FROM " ++ snakeCaseName b.typeName ++ ascii " WHERE  ;" ∧
    ascii "WHERE" <:+: queryText b := by
  refine ⟨conditions_allZero b h, args_allZero b h, queryText_allZero b h, ?_⟩
  rw [queryText_allZero b h]
  have hw : ascii " WHERE  ;" = ascii " " ++ ascii "WHERE" ++ ascii "  ;" := by decide
  refine ⟨ascii "SELECT " ++ Join (b.fields.map dbName) (ascii ", ") ++ ascii " FROM " ++
    snakeCaseName b.typeName ++ ascii " ", ascii "  ;", ?_⟩
  rw [hw]
  simp only [List.append_assoc]

theorem all_zero_statement_witness :
    allZero (Album 0 [] [] 0) ∧
    queryText (Album 0 [] [] 0) =
      ascii "SELECT id, title, artist, price FROM album WHERE  ;" := by
  have h := all_zero_statement (Album 0 [] [] 0) (by decide)
  exact ⟨by decide, by rw [h.2.2.1]; decide⟩

/-- C10, on the code: when the cursor yields zero rows, whatever the record
and the reported columns, the run takes the out-of-range branch of
`resultsSlice[0]` and stops with that panic; no record is returned. -/
theorem empty_result_panics (pf : GoString → Nat) (cols : List GoString) (b : Bean) :
    (jormQueryRow pf (fun _ _ => some ⟨cols, []⟩) b).result = .error .indexOutOfRange := by
  simp [jormQueryRow, rowsLoop]

/-! ## Further properties of `snakeCaseName` -/

/-- C15: for a record whose type name and field names are made only of
ASCII letters, digits and underscore, `snakeCaseName` of any such identifier
holds only lowercase letters, digits and underscore, and so the table name,
every column name and every predicate name placed in the statement is such a
token, with no uppercase letter. -/
theorem names_are_lower_tokens (b : Bean) (ht : isIdentifier b.typeName)
    (hf : ∀ f ∈ b.fields, isIdentifier f.Name) :
    (∀ s : GoString, isIdentifier s → isLowerToken (snakeCaseName s)) ∧
    isLowerToken (snakeCaseName b.typeName) ∧
    (∀ c ∈ (reflectBean b).cols, isLowerToken c ∧ noUpper c) ∧
    (∀ c ∈ (reflectBean b).conditions, isLowerToken c ∧ noUpper c) := by
  refine ⟨lowerToken_snakeCaseName, lowerToken_snakeCaseName _ ht, ?_, ?_⟩
  · intro c hc
    rw [cols_eq] at hc
    obtain ⟨f, hfm, rfl⟩ := List.mem_map.1 hc
    exact ⟨lowerToken_snakeCaseName _ (hf f hfm), snakeCaseName_noUpper _⟩
  · intro c hc
    unfold reflectBean at hc
    rw [reflectLoop_conditions] at hc
    simp only [List.nil_append] at hc
    obtain ⟨f, hfm, rfl⟩ := List.mem_map.1 hc
    exact ⟨lowerToken_snakeCaseName _ (hf f (List.mem_of_mem_filter hfm)),
      snakeCaseName_noUpper _⟩

theorem names_are_lower_tokens_witness :
    isIdentifier (Album 1 [] [] 0).typeName ∧
    (∀ f ∈ (Album 1 [] [] 0).fields, isIdentifier f.Name) ∧
    isLowerToken (snakeCaseName (Album 1 [] [] 0).typeName) :=
  ⟨by decide, by decide, (names_are_lower_tokens (Album 1 [] [] 0) (by decide) (by decide)).2.1⟩

/-- C19: the output of `snakeCaseName` is as long as the input plus the number
of indices `i >= 1` holding a byte in `A..Z`; so it is at least as long as the
input and, for a non-empty input, at most `2 * len - 1` long; and it can be
longer than the capacity `len(name) + 1` the buffer is created with, as on
`HTTPServer` (10 bytes in, 14 bytes out). -/
theorem snakeCaseName_length (s : GoString) :
    (snakeCaseName s).length = s.length + s.tail.countP isUpperByte ∧
    s.length ≤ (snakeCaseName s).length ∧
    (s ≠ [] → (snakeCaseName s).length + 1 ≤ 2 * s.length) ∧
    (ascii "HTTPServer").length + 1 < (snakeCaseName (ascii "HTTPServer")).length := by
  have hlen := length_snakeCaseName s
  have hcount : s.tail.countP isUpperByte ≤ s.tail.length := List.countP_le_length _
  refine ⟨hlen, by omega, ?_, by decide⟩
  intro hne
  have hpos : 0 < s.length := List.length_pos.2 hne
  have ht : s.tail.length = s.length - 1 := by simp
  omega

/-! ## Properties of the map `dbName2StructName` and of the decoder -/

/-- C12, as stated, fails: the fields `AB` and `A_b` have distinct names and
the same snake-cased name `a_b`, so the map of that record has a single entry,
which maps `a_b` back to `A_b` only. -/
theorem map_bijection_counterexample :
    distinctNames (Pair 0 0) ∧
    snakeCaseName (ascii "AB") = snakeCaseName (ascii "A_b") ∧
    (reflectBean (Pair 0 0)).dbName2StructName = [(ascii "a_b", ascii "A_b")] ∧
    (reflectBean (Pair 0 0)).dbName2StructName.length < (Pair 0 0).fields.length ∧
    mapGet (reflectBean (Pair 0 0)).dbName2StructName (snakeCaseName (ascii "AB")) ≠
      some (ascii "AB") := by
  decide

/-- C12, amended: for a record whose fields have pairwise distinct snake-cased
names, the map has exactly one entry per field, in declaration order, each db
name maps back to its field, and every entry comes from a field. -/
theorem map_bijection_of_distinct_dbNames (b : Bean)
    (h : (b.fields.map (fun f => snakeCaseName f.Name)).Nodup) :
    (reflectBean b).dbName2StructName =
      b.fields.map (fun f => (snakeCaseName f.Name, f.Name)) ∧
    (reflectBean b).dbName2StructName.length = b.fields.length ∧
    (∀ f ∈ b.fields,
      mapGet (reflectBean b).dbName2StructName (snakeCaseName f.Name) = some f.Name) ∧
    (∀ k name, mapGet (reflectBean b).dbName2StructName k = some name →
      snakeCaseName name = k ∧ ∃ f ∈ b.fields, f.Name = name) := by
  have hm : (reflectBean b).dbName2StructName =
      b.fields.map (fun f => (snakeCaseName f.Name, f.Name)) := by
    rw [map_eq_foldl, foldl_mapStep_nodup b.fields [] (by simpa [mapKeys, dbName] using h)]
    simp
  refine ⟨hm, by rw [hm]; simp, ?_, fun k name hk => map_entry_sound b k name hk⟩
  intro f hf
  obtain ⟨name, hname⟩ := map_key_of_col b (dbName f) (by rw [cols_eq]; exact List.mem_map.2 ⟨f, hf, rfl⟩)
  obtain ⟨hs, g, hg, hgn⟩ := map_entry_sound b _ name hname
  subst hgn
  have hfg : g = f := List.inj_on_of_nodup_map h hg hf hs
  subst hfg
  exact hname

theorem map_bijection_of_distinct_dbNames_witness :
    ((Album 1 [] [] 0).fields.map (fun f => snakeCaseName f.Name)).Nodup ∧
    (reflectBean (Album 1 [] [] 0)).dbName2StructName =
      [(ascii "id", ascii "Id"), (ascii "title", ascii "Title"),
        (ascii "artist", ascii "Artist"), (ascii "price", ascii "Price")] := by
  have h := (map_bijection_of_distinct_dbNames (Album 1 [] [] 0) (by decide)).1
  exact ⟨by decide, by rw [h]; decide⟩

/-- C13: frame property of the decoder, for a record whose field names are
non-empty and any raw row: when the decoding loop completes, the record keeps
its field names and every field whose db name is not a key of the raw row
holds the value it held before; and the loop does complete when the keys of
the raw row are drawn from the projection. -/
theorem decoder_frame (pf : GoString → Nat) (b : Bean) (raw : RawRow)
    (hne : ∀ f ∈ b.fields, f.Name ≠ []) :
    (∀ out, decodeLoop pf (reflectBean b).dbName2StructName raw b.fields = .ok out →
      out.map (fun f => f.Name) = b.fields.map (fun f => f.Name) ∧
      ∀ (i : Nat) (f : StructField), b.fields[i]? = some f →
        snakeCaseName f.Name ∉ mapKeys raw → out[i]? = some f) ∧
    ((∀ key ∈ mapKeys raw, key ∈ (reflectBean b).cols) →
      ∃ out, decodeLoop pf (reflectBean b).dbName2StructName raw b.fields = .ok out) := by
  constructor
  · intro out hout
    obtain ⟨hn, hfr⟩ := decodeLoop_frame pf _ raw b.fields out hout
    refine ⟨hn, ?_⟩
    intro i f hf hkey
    apply hfr i f hf
    intro key hk e
    have hfm : f ∈ b.fields := List.getElem?_mem hf
    cases hg : mapGet (reflectBean b).dbName2StructName key with
    | none =>
      rw [hg] at e
      exact hne f hfm e.symm
    | some name =>
      rw [hg] at e
      simp only [Option.getD_some] at e
      have := (map_entry_sound b key name hg).1
      rw [e] at this
      exact hkey (this ▸ hk)
  · intro hkeys
    apply decodeLoop_ok
    intro key hk
    obtain ⟨name, hname⟩ := map_key_of_col b key (hkeys key hk)
    obtain ⟨_, f, hf, hfn⟩ := map_entry_sound b key name hname
    exact ⟨name, hname, List.mem_map.2 ⟨f, hf, hfn⟩⟩

theorem decoder_frame_witness :
    (∀ f ∈ (Album 1 [] (ascii "Miles") 5).fields, f.Name ≠ []) ∧
    decodeLoop (fun _ => 0) (reflectBean (Album 1 [] (ascii "Miles") 5)).dbName2StructName
      [(ascii "title", ascii "Blue Train")] (Album 1 [] (ascii "Miles") 5).fields =
      .ok (Album 1 (ascii "Blue Train") (ascii "Miles") 5).fields ∧
    (Album 1 (ascii "Blue Train") (ascii "Miles") 5).fields[2]? =
      some ⟨ascii "Artist", .str (ascii "Miles")⟩ := by
  have h := (decoder_frame (fun _ => 0) (Album 1 [] (ascii "Miles") 5)
    [(ascii "title", ascii "Blue Train")] (by decide)).1
    (Album 1 (ascii "Blue Train") (ascii "Miles") 5).fields (by decide)
  exact ⟨by decide, by decide, h.2 2 ⟨ascii "Artist", .str (ascii "Miles")⟩ (by decide) (by decide)⟩

/-- C18: lookup safety, for every record (also one where two field names have
the same snake-cased name) every column of the projection is a key of the map
and maps to a declared field name with that snake-cased name; hence on a raw
row whose keys are drawn from the projection the decoding loop finds a field
for every key and completes without the zero-`Value` panic. -/
theorem lookup_safety (pf : GoString → Nat) (b : Bean) (raw : RawRow)
    (h : ∀ key ∈ mapKeys raw, key ∈ (reflectBean b).cols) :
    (∀ c ∈ (reflectBean b).cols, ∃ name,
      mapGet (reflectBean b).dbName2StructName c = some name ∧ snakeCaseName name = c ∧
      ∃ f, FieldByName b.fields name = some f ∧ f.Name = name) ∧
    ∃ out, decodeLoop pf (reflectBean b).dbName2StructName raw b.fields = .ok out := by
  constructor
  · intro c hc
    obtain ⟨name, hname⟩ := map_key_of_col b c hc
    obtain ⟨hs, f, hf, hfn⟩ := map_entry_sound b c name hname
    exact ⟨name, hname, hs, FieldByName_of_mem b.fields name (List.mem_map.2 ⟨f, hf, hfn⟩)⟩
  · apply decodeLoop_ok
    intro key hk
    obtain ⟨name, hname⟩ := map_key_of_col b key (h key hk)
    obtain ⟨_, f, hf, hfn⟩ := map_entry_sound b key name hname
    exact ⟨name, hname, List.mem_map.2 ⟨f, hf, hfn⟩⟩

theorem lookup_safety_witness :
    (∀ key ∈ mapKeys [(ascii "a_b", ascii "7")], key ∈ (reflectBean (Pair 1 2)).cols) ∧
    decodeLoop (fun _ => 0) (reflectBean (Pair 1 2)).dbName2StructName
      [(ascii "a_b", ascii "7")] (Pair 1 2).fields = .ok (Pair 1 7).fields := by
  have h := (lookup_safety (fun _ => 0) (Pair 1 2) [(ascii "a_b", ascii "7")] (by decide)).2
  obtain ⟨out, hout⟩ := h
  refine ⟨by decide, ?_⟩
  rw [hout]
  have hd : decodeLoop (fun _ => 0) (reflectBean (Pair 1 2)).dbName2StructName
      [(ascii "a_b", ascii "7")] (Pair 1 2).fields = .ok (Pair 1 7).fields := by decide
  rw [hout] at hd
  exact hd

/-! ## Properties of row capture and of the whole run -/

/-- C16, as stated, fails: a row with a `nil` cell stops the capture with a
panic, and so does a row with a slice-of-`uint8` cell that is not a `[]byte`,
so there is no raw row at all; and when a column name occurs twice, the key of
a column whose cell has another representation is still present, with the
bytes of the earlier column. -/
theorem capture_classification_counterexample :
    captureLoop [ascii "id", ascii "title"] [.int64 1, .null] [] = .error .nilDereference ∧
    captureLoop [ascii "id", ascii "title"] [.int64 1, .namedBytes (ascii "Blue Train")] [] =
      .error .interfaceConversion ∧
    captureLoop [ascii "a_b", ascii "a_b"] [.bytes (ascii "x"), .other] [] =
      .ok [(ascii "a_b", ascii "x")] ∧
    mapGet [(ascii "a_b", ascii "x")] (ascii "a_b") ≠ cellBytes .other := by
  decide

/-- C16, amended: for pairwise distinct column names and a row in which no
cell is `nil` or a slice of `uint8` of a type other than `[]byte`, the capture
completes and the raw row has, for each column, the decimal digits of an
`int64` cell, the bytes of a `[]byte` cell unchanged and no entry for a cell
of another kind; a name that is no column has no entry. -/
theorem capture_classification (cols : List GoString) (cells : List Cell)
    (hd : cols.Nodup) (hn : capturable cells) :
    ∃ raw, captureLoop cols cells [] = .ok raw ∧
      (∀ (i : Nat) (key : GoString), cols[i]? = some key →
        (∀ n, cells[i]? = some (.int64 n) → mapGet raw key = some (FormatInt n)) ∧
        (∀ v, cells[i]? = some (.bytes v) → mapGet raw key = some v) ∧
        (cells[i]? = some .other → mapGet raw key = none)) ∧
      (∀ key, key ∉ cols → mapGet raw key = none) := by
  obtain ⟨raw, hraw, hin, hout⟩ := captureLoop_spec cols cells [] hd hn
  have hmem : ∀ (i : Nat) (key : GoString) (cell : Cell), cols[i]? = some key →
      cells[i]? = some cell → (key, cell) ∈ cols.zip cells := by
    intro i key cell h1 h2
    exact List.getElem?_mem (List.getElem?_zip_eq_some.2 ⟨h1, h2⟩)
  refine ⟨raw, hraw, ?_, ?_⟩
  · intro i key hkey
    refine ⟨fun n hc => ?_, fun v hc => ?_, fun hc => ?_⟩
    · simpa [cellBytes] using hin key _ (hmem i key _ hkey hc)
    · simpa [cellBytes] using hin key _ (hmem i key _ hkey hc)
    · simpa [cellBytes, mapGet] using hin key _ (hmem i key _ hkey hc)
  · intro key hkey
    have hz : key ∉ (cols.zip cells).map Prod.fst := by
      intro h
      obtain ⟨p, hp, hpk⟩ := List.mem_map.1 h
      obtain ⟨a, c⟩ := p
      simp only at hpk
      subst hpk
      exact hkey (List.of_mem_zip hp).1
    simpa [mapGet] using hout key hz

theorem capture_classification_witness :
    albumCols.Nodup ∧ capturable [.int64 1, .bytes (ascii "Blue Train"), .other, .other] ∧
    captureLoop albumCols [.int64 1, .bytes (ascii "Blue Train"), .other, .other] [] =
      .ok [(ascii "id", ascii "1"), (ascii "title", ascii "Blue Train")] := by
  obtain ⟨raw, hraw, _, _⟩ := capture_classification albumCols
    [.int64 1, .bytes (ascii "Blue Train"), .other, .other] (by decide) (by decide)
  refine ⟨by decide, by decide, ?_⟩
  have hd : captureLoop albumCols [.int64 1, .bytes (ascii "Blue Train"), .other, .other] [] =
      .ok [(ascii "id", ascii "1"), (ascii "title", ascii "Blue Train")] := by decide
  rw [hraw] at hd ⊢
  exact hd

/-- C17, as stated, fails: with the same first row, a result of one row loads
the record, a result whose second row holds a `nil` cell stops with a panic
while that second row is captured, before the first row is decoded, and so
does a result whose second row holds a slice-of-`uint8` cell that is not a
`[]byte`. -/
theorem first_row_only_counterexample :
    (jormQueryRow (fun _ => 0)
      (fun _ _ => some ⟨albumCols,
        [[.int64 1, .bytes (ascii "Blue Train"), .bytes (ascii "John Coltrane"), .other]]⟩)
      (Album 1 [] [] 0)).result =
      .ok (Album 1 (ascii "Blue Train") (ascii "John Coltrane") 0) ∧
    (jormQueryRow (fun _ => 0)
      (fun _ _ => some ⟨albumCols,
        [[.int64 1, .bytes (ascii "Blue Train"), .bytes (ascii "John Coltrane"), .other],
         [.int64 2, .null, .null, .other]]⟩)
      (Album 1 [] [] 0)).result = .error .nilDereference ∧
    (jormQueryRow (fun _ => 0)
      (fun _ _ => some ⟨albumCols,
        [[.int64 1, .bytes (ascii "Blue Train"), .bytes (ascii "John Coltrane"), .other],
         [.int64 2, .namedBytes (ascii "Giant Steps"), .bytes (ascii "John Coltrane"),
           .other]]⟩)
      (Album 1 [] [] 0)).result = .error .interfaceConversion := by
  decide

/-- C17, amended: when no row after the first holds a cell that is `nil` or a
slice of `uint8` of a type other than `[]byte`, the outcome of the run is what
capture and decoding make of the first row alone; two results with the same
columns and the same first row give the same outcome, whatever their later
rows. -/
theorem first_row_only (pf : GoString → Nat) (db1 db2 : Driver) (b : Bean)
    (cols : List GoString) (row : List Cell) (more1 more2 : List (List Cell))
    (h1 : db1 (queryText b) (reflectBean b).args = some ⟨cols, row :: more1⟩)
    (h2 : db2 (queryText b) (reflectBean b).args = some ⟨cols, row :: more2⟩)
    (hn1 : ∀ r ∈ more1, capturable r) (hn2 : ∀ r ∈ more2, capturable r) :
    (jormQueryRow pf db1 b).result = firstRowOutcome pf b cols row ∧
    (jormQueryRow pf db1 b).result = (jormQueryRow pf db2 b).result := by
  rw [result_first_row pf db1 b cols row more1 h1 hn1,
    result_first_row pf db2 b cols row more2 h2 hn2]
  exact ⟨rfl, rfl⟩

theorem first_row_only_witness :
    (jormQueryRow (fun _ => 0)
      (fun _ _ => some ⟨albumCols,
        [[.int64 1, .bytes (ascii "Blue Train"), .bytes (ascii "John Coltrane"), .other]]⟩)
      (Album 1 [] [] 0)).result =
    (jormQueryRow (fun _ => 0)
      (fun _ _ => some ⟨albumCols,
        [[.int64 1, .bytes (ascii "Blue Train"), .bytes (ascii "John Coltrane"), .other],
         [.int64 2, .bytes (ascii "Giant Steps"), .bytes (ascii "John Coltrane"), .other]]⟩)
      (Album 1 [] [] 0)).result :=
  (first_row_only (fun _ => 0) _ _ (Album 1 [] [] 0) albumCols
    [.int64 1, .bytes (ascii "Blue Train"), .bytes (ascii "John Coltrane"), .other] []
    [[.int64 2, .bytes (ascii "Giant Steps"), .bytes (ascii "John Coltrane"), .other]]
    rfl rfl (by decide) (by decide)).2

/-! ## Properties of the byte-bag round trip and of decode errors -/

/-- C11, on the code: bytes that are no base-10 number, or a number outside
`int64`, make `ParseInt` report an error, and the decoder discards the error
and writes the returned value, 0 or the nearest bound, into the integer field;
the run with the first row `("1abc", "Blue Train", "John Coltrane")` ends
normally with `Id = 0`. -/
theorem decode_error_discarded :
    ParseInt (ascii "1abc") = (0, true) ∧
    ParseInt (ascii "9223372036854775808") = (9223372036854775807, true) ∧
    decodeValue (fun _ => 0) (.int64 1) (ascii "1abc") = .int64 0 ∧
    decodeValue (fun _ => 0) (.int64 1) (ascii "9223372036854775808") =
      .int64 9223372036854775807 ∧
    (jormQueryRow (fun _ => 0)
      (fun _ _ => some ⟨albumCols,
        [[.bytes (ascii "1abc"), .bytes (ascii "Blue Train"), .bytes (ascii "John Coltrane"),
          .other]]⟩)
      (Album 1 [] [] 0)).result =
      .ok (Album 0 (ascii "Blue Train") (ascii "John Coltrane") 0) := by
  decide

/-- C14: round trip through the byte-bag, every `int64` cell is captured as
its decimal digits and those digits decode into an integer field as the same
number (negative numbers and both bounds included), every `[]byte` cell
decodes into a text field as the same bytes, and so a run of `Album` whose
first row is `(I, T, A, c)` ends with `Id = I`, `Title = T`, `Artist = A`,
when neither `c` nor a cell of a later row is `nil` or a slice of `uint8` of a
type other than `[]byte` (on those two the capture panics). -/
theorem int_text_round_trip (pf : GoString → Nat) (db : Driver) (id : Int)
    (title artist : GoString) (price : Nat) (I : Int) (T A : GoString) (c : Cell)
    (more : List (List Cell)) (hI : inInt64 I) (hc : c.captures = true)
    (hn : ∀ r ∈ more, capturable r)
    (hdb : db (queryText (Album id title artist price))
      (reflectBean (Album id title artist price)).args =
      some ⟨albumCols, [.int64 I, .bytes T, .bytes A, c] :: more⟩) :
    (∀ n : Int, inInt64 n → ∀ (key : GoString) (old : Int),
      captureLoop [key] [.int64 n] [] = .ok [(key, FormatInt n)] ∧
      ParseInt (FormatInt n) = (n, false) ∧
      decodeValue pf (.int64 old) (FormatInt n) = .int64 n) ∧
    FormatInt (-9223372036854775808) = ascii "-9223372036854775808" ∧
    FormatInt 9223372036854775807 = ascii "9223372036854775807" ∧
    (∀ v key old : GoString,
      captureLoop [key] [.bytes v] [] = .ok [(key, v)] ∧
      decodeValue pf (.str old) v = .str v) ∧
    ∃ p, (jormQueryRow pf db (Album id title artist price)).result = .ok (Album I T A p) := by
  refine ⟨?_, by decide, by decide, ?_, ?_⟩
  · intro n hn2 key old
    refine ⟨rfl, ParseInt_FormatInt n hn2, ?_⟩
    simp [decodeValue, ParseInt_FormatInt n hn2]
  · intro v key old
    exact ⟨rfl, rfl⟩
  · rw [result_first_row pf db _ albumCols _ more hdb hn]
    obtain ⟨p, hp⟩ := album_first_row pf id title artist price I T A c hc
    rw [ParseInt_FormatInt I hI] at hp
    exact ⟨p, hp⟩

theorem int_text_round_trip_witness :
    inInt64 (-9223372036854775808) ∧
    ∃ p, (jormQueryRow (fun _ => 0)
      (fun _ _ => some ⟨albumCols,
        [[.int64 (-9223372036854775808), .bytes (ascii "Blue Train"),
          .bytes (ascii "John Coltrane"), .other]]⟩)
      (Album 1 [] [] 0)).result =
      .ok (Album (-9223372036854775808) (ascii "Blue Train") (ascii "John Coltrane") p) :=
  ⟨by decide, (int_text_round_trip (fun _ => 0) _ 1 [] [] 0 (-9223372036854775808)
    (ascii "Blue Train") (ascii "John Coltrane") .other [] (by decide) (by decide)
    (by decide) rfl).2.2.2.2⟩

end Jorm
